import Mathlib

/-!
Verification of the PyHeart workflow engine (`src/pyheart-package.py`,
module `pyheart/core/workflow.py`) against its natural-language
specification.  The Python code is shallowly embedded: pydantic models
become Lean structures, dict state becomes association lists with
cons-and-first-lookup update semantics, Python exceptions become
`Except` values, and the engine's recursive task execution is given an
explicit fuel parameter (the source recursion is bounded in practice by
the retry counters and sub-task nesting; fuel adequacy is part of what
is proved).  Wall-clock timestamps (`datetime.utcnow()`) are outside
the embedding: `TaskResult.started_at` / `completed_at` and instance
timestamps are omitted since no verified property mentions their
values.
-/

namespace Pyheart

/-- Task lifecycle states, from `class TaskStatus(str, Enum)`. -/
inductive TaskStatus where
| pending
| running
| completed
| failed
| cancelled
| skipped
deriving DecidableEq, Repr

/-- Task types, from `class TaskType(str, Enum)`. -/
inductive TaskType where
| api_call
| transformation
| decision
| notification
| human_task
| script
| parallel
| sequence
deriving DecidableEq, Repr

/-- The string value of a task type (the `str` mixin value of the enum). -/
def TaskType.str : TaskType → String
| .api_call => "api_call"
| .transformation => "transformation"
| .decision => "decision"
| .notification => "notification"
| .human_task => "human_task"
| .script => "script"
| .parallel => "parallel"
| .sequence => "sequence"

/-- Python exceptions that the embedded code can raise. -/
inductive PyErr where
| valueError : String → PyErr
| attributeError : String → PyErr
| typeError : String → PyErr
| handlerError : String → PyErr
deriving DecidableEq, Repr

/-- The message carried by an exception (`str(e)` in the source). -/
def PyErr.msg : PyErr → String
| .valueError s => s
| .attributeError s => s
| .typeError s => s
| .handlerError s => s

mutual
/-- Python runtime values that flow through variables, condition
operands and task outputs.  Numbers are modelled by rationals: every
numeric literal appearing in the verified properties is exactly
representable and the comparisons coincide with the source's float
comparisons on them. -/
inductive Value where
| str : String → Value
| num : ℚ → Value
| bool : Bool → Value
| none : Value
| list : List Value → Value
| result : TaskResult → Value

/-- Result of one task execution, from `@dataclass class TaskResult`
(status / output / error; the two wall-clock timestamp fields are not
modelled). -/
inductive TaskResult where
| mk : TaskStatus → Option Value → Option String → TaskResult
end

/-- The `status` field of a `TaskResult`. -/
def TaskResult.status : TaskResult → TaskStatus
| ⟨s, _, _⟩ => s

/-- The `output` field of a `TaskResult`. -/
def TaskResult.output : TaskResult → Option Value
| ⟨_, o, _⟩ => o

/-- The `error` field of a `TaskResult`. -/
def TaskResult.error : TaskResult → Option String
| ⟨_, _, e⟩ => e

/-- Retry policy dictionary contents: `retry_policy.get("max_retries", 3)`
and `retry_policy.get("delay", 5)`; a `none` field models an absent key. -/
structure RetryPolicy where
  max_retries : Option ℚ
  delay : Option ℚ

/-- Workflow task definition, from `class Task(BaseModel)`.  The
`config` dict is modelled by the one key the embedded handlers read:
`config.get("tasks", [])`, the sub-task list of the composite handlers
(each entry is constructed into a `Task` by the handler; construction
of a well-typed descriptor always succeeds, so the field holds the
constructed tasks).  `retry_policy` is `Option` so that `none` models
the default empty dict, which is falsy in `if task.retry_policy:`. -/
structure Task where
  id : String
  name : String
  type : TaskType
  configTasks : List Task
  dependencies : List String
  retry_policy : Option RetryPolicy
  timeout : Option ℚ

/-- Healthcare process definition, from `class ProcessDefinition(BaseModel)`. -/
structure ProcessDefinition where
  id : String
  name : String
  version : String
  description : Option String
  tasks : List Task
  vars : List (String × Value)

/-- Running workflow instance, from `class WorkflowInstance(BaseModel)`
(creation/update timestamps omitted as wall-clock data). -/
structure Instance where
  id : String
  process_id : String
  status : TaskStatus
  vars : List (String × Value)
  task_results : List (String × TaskResult)

/-! Dictionary state (`Dict[str, ...]` fields mutated by assignment) is
modelled by association lists where assignment conses a fresh pair and
`List.lookup` returns the most recent binding. -/

/-- Pydantic `ValidationError`. -/
inductive ValidationError where
| mk : String → ValidationError
deriving DecidableEq

/-- Construction of a `ProcessDefinition`.  The source class declares
only typed fields and no validators, so constructing it from
well-typed arguments performs no structural check and always
succeeds. -/
def ProcessDefinition.construct (id name version : String)
    (description : Option String) (tasks : List Task)
    (vars : List (String × Value)) :
    Except ValidationError ProcessDefinition :=
  .ok { id := id, name := name, version := version,
        description := description, tasks := tasks, vars := vars }

/-! ## Condition evaluator (`_evaluate_condition`, `_get_variable_value`) -/

/-- The check `expr.startswith("$")`, phrased on the character list. -/
def startsDollar (s : String) : Bool :=
  match s.data with
  | '$' :: _ => true
  | _ => false

/-- From `_get_variable_value`: a string starting with `$` is a
variable reference resolved with `variables.get(name)` (absent gives
`None`), any other string is a literal.  A non-string operand has no
`startswith` attribute, so the attribute access raises. -/
def getVariableValue (expr : Value) (vars : List (String × Value)) :
    Except PyErr Value :=
  match expr with
  | .str s =>
    if startsDollar s then
      .ok ((vars.lookup (s.drop 1)).getD Value.none)
    else
      .ok (.str s)
  | _ => .error (.attributeError "object has no attribute startswith")

/-- Python numeric view of a value: ints/floats are numbers and bools
compare as 0/1. -/
def Value.asNum : Value → Option ℚ
| .num q => some q
| .bool b => some (if b then 1 else 0)
| _ => Option.none

mutual
/-- Python `==` on the embedded values: cross-type numeric equality for
numbers and booleans, structural equality within a type, `False` (and
no exception) across unrelated types. -/
def pyEq : Value → Value → Bool
| .str a, .str b => a == b
| .none, .none => true
| .list a, .list b => pyEqList a b
| .result a, .result b => pyEqRes a b
| a, b =>
  match a.asNum, b.asNum with
  | some x, some y => x == y
  | _, _ => false

/-- Elementwise Python `==` on lists. -/
def pyEqList : List Value → List Value → Bool
| [], [] => true
| a :: as', b :: bs' => pyEq a b && pyEqList as' bs'
| _, _ => false

/-- Python `==` on `TaskResult` dataclass values (field-wise). -/
def pyEqRes : TaskResult → TaskResult → Bool
| ⟨s, o, e⟩, ⟨s', o', e'⟩ =>
  s == s' && e == e' &&
  (match o, o' with
   | Option.none, Option.none => true
   | some v, some w => pyEq v w
   | _, _ => false)
end

mutual
/-- Python `<` on the embedded values: numbers (and bools) by numeric
order, strings lexicographically, lists lexicographically with the
same rules; any other combination raises `TypeError`. -/
def pyLt : Value → Value → Except PyErr Bool
| .str a, .str b => .ok (decide (a < b))
| .list a, .list b => pyLtList a b
| a, b =>
  match a.asNum, b.asNum with
  | some x, some y => .ok (decide (x < y))
  | _, _ => .error (.typeError "unsupported operand types for comparison")

/-- Lexicographic Python `<` on lists: skip `==`-equal prefixes, compare
the first difference, a strict prefix is smaller. -/
def pyLtList : List Value → List Value → Except PyErr Bool
| [], [] => .ok false
| [], _ :: _ => .ok true
| _ :: _, [] => .ok false
| a :: as', b :: bs' =>
  if pyEq a b then pyLtList as' bs' else pyLt a b
end

/-- Python `<=` derived as `<` or `==` (equivalent on the orderable
embedded values, which contain no NaN). -/
def pyLe (a b : Value) : Except PyErr Bool := do
  let l ← pyLt a b
  .ok (l || pyEq a b)

/-- A condition dict `{operator, left, right}`; `none` fields model
absent keys, read with the source's `.get` defaults. -/
structure Condition where
  operator : Option String
  left : Option Value
  right : Option Value

/-- From `_evaluate_condition`: resolve both operands through
`_get_variable_value`, then dispatch on the operator string; an
unknown operator yields `False`.  `>`/`<`/`>=`/`<=` can raise
`TypeError` on unordered operand types, and a non-string operand
raises `AttributeError` already during resolution. -/
def evaluateCondition (condition : Condition)
    (vars : List (String × Value)) : Except PyErr Bool := do
  let operator := condition.operator.getD "eq"
  let left := condition.left.getD (.str "")
  let right := condition.right.getD (.str "")
  let leftValue ← getVariableValue left vars
  let rightValue ← getVariableValue right vars
  if operator = "eq" then .ok (pyEq leftValue rightValue)
  else if operator = "ne" then .ok (!pyEq leftValue rightValue)
  else if operator = "gt" then pyLt rightValue leftValue
  else if operator = "lt" then pyLt leftValue rightValue
  else if operator = "gte" then pyLe rightValue leftValue
  else if operator = "lte" then pyLe leftValue rightValue
  else .ok false

/-! ## Engine facade (`WorkflowEngine.register_process`, `start_process`) -/

/-- The two collections owned by the engine facade,
`self.processes : Dict[str, ProcessDefinition]` and
`self.instances : Dict[str, WorkflowInstance]`.  The handler table is
passed separately where needed. -/
structure Engine where
  processes : List (String × ProcessDefinition)
  instances : List (String × Instance)

/-- From `register_process`: `self.processes[process.id] = process` —
an unconditional dict assignment with no duplicate check. -/
def registerProcess (engine : Engine) (process : ProcessDefinition) : Engine :=
  { engine with processes := (process.id, process) :: engine.processes }

/-- The spec's name for the error raised by `start_process` on an
unregistered process id: `ValueError(f"Process {process_id} not found")`. -/
def ProcessNotFoundErr (process_id : String) : PyErr :=
  .valueError ("Process " ++ process_id ++ " not found")

/-- Python dict merge `{**base, **overrides}`: with cons-first-lookup
association lists, bindings of `overrides` shadow those of `base`. -/
def mergeDicts (base overrides : List (String × Value)) :
    List (String × Value) :=
  overrides ++ base

/-- From `start_process`: raise if the id is unregistered (returning
the engine unchanged), otherwise create the instance (id derived from
the process id and the current timestamp, passed here as the rendered
string `now`), store it, and return its id.  The concurrent run the
source spawns with `asyncio.create_task` is modelled separately by
`executeInstance`. -/
def startProcess (engine : Engine) (now : String) (process_id : String)
    (vars : Option (List (String × Value))) :
    Except PyErr String × Engine :=
  match engine.processes.lookup process_id with
  | Option.none => (.error (ProcessNotFoundErr process_id), engine)
  | some process =>
    let inst : Instance :=
      { id := process_id ++ "_" ++ now
        process_id := process_id
        status := .pending
        vars := mergeDicts process.vars (vars.getD [])
        task_results := [] }
    (.ok inst.id, { engine with instances := (inst.id, inst) :: engine.instances })

/-! ## Dependency scheduler (`_get_execution_order`)

The source performs a depth-first visit with a `visited` set of ids,
adding a task's id before recursing into its dependencies and
appending the task afterwards.  The recursion depth is bounded by the
number of distinct task ids; the embedding makes the bound explicit
with a fuel parameter and `getExecutionOrder` is proved (below) never
to exhaust the canonical fuel, which is the termination argument for
the source recursion. -/

mutual
/-- From the inner `visit(task)`: return if the id was already visited,
otherwise mark it visited, visit the dependencies in order, then
append the task to the output.  `none` means the fuel bound was
exceeded, which corresponds to the source recursion being deeper than
the number of distinct ids plus one — proved impossible. -/
def visit (tasks : List Task) :
    Nat → List String → List Task → Task → Option (List String × List Task)
| 0, _, _, _ => Option.none
| fuel + 1, visited, order, task =>
  if task.id ∈ visited then some (visited, order)
  else
    match visitDeps tasks fuel (task.id :: visited) order task.dependencies with
    | some (v, o) => some (v, o ++ [task])
    | Option.none => Option.none
termination_by fuel _ _ _ => (fuel, 0)

/-- From the loop `for dep_id in task.dependencies`: resolve each
dependency id with `next((t for t in tasks if t.id == dep_id), None)`
and visit the first matching task; an unmatched id is silently
skipped. -/
def visitDeps (tasks : List Task) :
    Nat → List String → List Task → List String →
    Option (List String × List Task)
| _, visited, order, [] => some (visited, order)
| fuel, visited, order, depId :: rest =>
  match tasks.find? (fun t => t.id == depId) with
  | some depTask =>
    match visit tasks fuel visited order depTask with
    | some (v, o) => visitDeps tasks fuel v o rest
    | Option.none => Option.none
  | Option.none => visitDeps tasks fuel visited order rest
termination_by fuel _ _ deps => (fuel, deps.length + 1)
end

/-- The number of distinct task ids not yet visited: the quantity the
source recursion strictly decreases, used as the canonical fuel. -/
def mcount (tasks : List Task) (visited : List String) : Nat :=
  ((tasks.map Task.id).dedup.filter (fun i => !visited.contains i)).length

/-- From `_get_execution_order`: run `visit` over the tasks in list
order, threading the visited set and the output.  `none` would mean
the source recursion fails to terminate within the canonical depth
bound; it is proved below to never happen. -/
def getExecutionOrder (tasks : List Task) : Option (List Task) :=
  let fuel := (tasks.map Task.id).dedup.length + 1
  match tasks.foldl
      (fun acc task =>
        match acc with
        | some (v, o) => visit tasks fuel v o task
        | Option.none => Option.none)
      (some ([], [])) with
  | some (_, order) => some order
  | Option.none => Option.none

/-! ## Executor (`_execute_task`, `_handle_retry`, `_handle_sequence`,
`_execute_instance`)

The engine's handler table `self.task_handlers : Dict[TaskType, Callable]`
is passed as a function `TaskType → Option HandlerImpl` (tests install
their own handlers through it).  A `custom` handler is an arbitrary
registered coroutine, modelled as a pure function of the task and the
instance returning a value or raising; the built-in `sequence`
composite recursively re-enters the executor and is embedded
explicitly.  Alongside its source outputs the executor returns an
invocation log listing, in order, the id of each task whose handler
was actually invoked — the counter the spec's testable properties
observe. -/

/-- A handler registered in `task_handlers`. -/
inductive HandlerImpl where
| custom : (Task → Instance → Except PyErr Value) → HandlerImpl
| sequence : HandlerImpl

/-- The engine's handler table. -/
abbrev Handlers := TaskType → Option HandlerImpl

/-- The dependency check of `_execute_task`: a dependency is satisfied
iff it has a recorded result whose status is `completed`. -/
def depSatisfied (inst : Instance) (depId : String) : Bool :=
  match inst.task_results.lookup depId with
  | some r => r.status == .completed
  | Option.none => false

/-- True iff some dependency has no result yet or a non-`completed`
one (the source returns `skipped` at the first such dependency). -/
def hasUnmetDependency (inst : Instance) (task : Task) : Bool :=
  task.dependencies.any (fun d => !depSatisfied inst d)

/-- Record a task result: `instance.task_results[task.id] = result`. -/
def Instance.record (inst : Instance) (taskId : String) (r : TaskResult) :
    Instance :=
  { inst with task_results := (taskId, r) :: inst.task_results }

/-- The message of the `ValueError` raised on a missing handler,
`f"No handler for task type {task.type}"` (the embedding renders the
enum by its string value). -/
def noHandlerMsg (t : TaskType) : String :=
  "No handler for task type " ++ TaskType.str t

mutual
/-- From `_execute_task`.  Dependency gate first (`skipped`, handler
never invoked); otherwise record `running`, look up the handler —
a missing handler raises `ValueError`, which the function's own
`except Exception` clause catches like any handler failure — and
record `completed` with the output or `failed` with the error
message, running `_handle_retry` when a retry policy is configured.
The source mutates one result object held in the results dict; the
embedding re-records the task id at each status change, which is
observationally the same through `lookup`.  Returns the source's
return value (the result object created by this invocation, not by
any retry), the updated instance, and the handler-invocation log. -/
def executeTask :
    Nat → Handlers → Instance → Task → TaskResult × Instance × List String
| 0, _, inst, _ =>
  ((⟨.failed, Option.none, some "recursion depth bound exceeded"⟩ : TaskResult),
    inst, [])
| fuel + 1, handlers, inst, task =>
  if hasUnmetDependency inst task then
    let result : TaskResult := ⟨.skipped, Option.none, Option.none⟩
    (result, inst.record task.id result, [])
  else
    let inst1 := inst.record task.id ⟨.running, Option.none, Option.none⟩
    match handlers task.type with
    | Option.none =>
      let result : TaskResult :=
        ⟨.failed, Option.none, some (noHandlerMsg task.type)⟩
      let inst2 := inst1.record task.id result
      match task.retry_policy with
      | some rp =>
        let (inst3, log) := handleRetry fuel handlers inst2 task rp
        (result, inst3, log)
      | Option.none => (result, inst2, [])
    | some impl =>
      let (outcome, inst2, log) := runHandler fuel handlers inst1 task impl
      match outcome with
      | .ok output =>
        let result : TaskResult := ⟨.completed, some output, Option.none⟩
        (result, inst2.record task.id result, log)
      | .error e =>
        let result : TaskResult := ⟨.failed, Option.none, some e.msg⟩
        let inst3 := inst2.record task.id result
        match task.retry_policy with
        | some rp =>
          let (inst4, log') := handleRetry fuel handlers inst3 task rp
          (result, inst4, log ++ log')
        | Option.none => (result, inst3, log)
termination_by fuel _ _ _ => (fuel, 0, 0)

/-- One handler invocation, `output = await handler(task, instance)`:
dispatches to the registered implementation and logs the invocation. -/
def runHandler :
    Nat → Handlers → Instance → Task → HandlerImpl →
    Except PyErr Value × Instance × List String
| _, _, inst, task, .custom f => (f task inst, inst, [task.id])
| fuel, handlers, inst, task, .sequence =>
  let (results, inst', log) := handleSequence fuel handlers inst task.configTasks
  (.ok (.list (results.map Value.result)), inst', task.id :: log)
termination_by fuel _ _ _ _ => (fuel, 2, 0)

/-- From `_handle_sequence`: execute the configured sub-tasks one at a
time through `_execute_task`, collecting the returned results, and
break as soon as one is `failed`; the (possibly partial) result list
is the handler's output. -/
def handleSequence :
    Nat → Handlers → Instance → List Task →
    List TaskResult × Instance × List String
| _, _, inst, [] => ([], inst, [])
| fuel, handlers, inst, sub :: rest =>
  let (r, inst', log) := executeTask fuel handlers inst sub
  if r.status == .failed then
    ([r], inst', log)
  else
    let (rs, inst'', log') := handleSequence fuel handlers inst' rest
    (r :: rs, inst'', log ++ log')
termination_by fuel _ _ subs => (fuel, 1, subs.length + 1)

/-- From `_handle_retry`: read the per-task retry counter from the
instance variables (default 0; the engine only ever stores numerals
under the `<id>_retries` key, read here through the numeric view), and
while it is below `max_retries` (default 3), increment it, sleep for
`delay` (a pure time suspension with no state effect, not modelled)
and re-invoke `_execute_task`, whose returned result is discarded. -/
def handleRetry :
    Nat → Handlers → Instance → Task → RetryPolicy → Instance × List String
| fuel, handlers, inst, task, rp =>
  let max_retries := rp.max_retries.getD 3
  let retry_key := task.id ++ "_retries"
  let current := ((inst.vars.lookup retry_key).getD (.num 0)).asNum.getD 0
  if current < max_retries then
    let inst1 :=
      { inst with vars := (retry_key, Value.num (current + 1)) :: inst.vars }
    let (_, inst2, log) := executeTask fuel handlers inst1 task
    (inst2, log)
  else
    (inst, [])
termination_by fuel _ _ _ _ => (fuel, 3, 0)
end

/-- From `_execute_instance`: set the instance `running`, walk the
scheduler's order executing each task (stopping early if the status
has become `cancelled` — unreachable here since the embedding is the
single sequential run), then set `completed` unless cancelled.  The
source's `except` clause setting `failed` has no counterpart because
`_execute_task` catches every exception internally and `_handle_retry`
re-enters it only from within that handling. -/
def executeInstance (fuel : Nat) (handlers : Handlers) (inst : Instance)
    (tasks : List Task) : Instance × List String :=
  let inst0 := { inst with status := .running }
  match getExecutionOrder tasks with
  | some order =>
    let step := order.foldl
      (fun acc task =>
        if acc.1.status == TaskStatus.cancelled then acc
        else
          let r := executeTask fuel handlers acc.1 task
          (r.2.1, acc.2 ++ r.2.2))
      (inst0, ([] : List String))
    if step.1.status == TaskStatus.cancelled then step
    else ({ step.1 with status := .completed }, step.2)
  | Option.none => (inst0, [])

/-! ## Concrete data used by counterexamples and witnesses -/

/-- A dependency-free script task with id `a`. -/
def exTaskA : Task :=
  { id := "a", name := "x", type := .script, configTasks := [],
    dependencies := [], retry_policy := Option.none, timeout := Option.none }

/-- A second task with the same id `a` but a different name. -/
def exTaskA' : Task :=
  { id := "a", name := "y", type := .script, configTasks := [],
    dependencies := [], retry_policy := Option.none, timeout := Option.none }

/-- A task with id `b` depending on `a`. -/
def exTaskB : Task :=
  { id := "b", name := "x", type := .script, configTasks := [],
    dependencies := ["a"], retry_policy := Option.none, timeout := Option.none }

/-- Two distinct tasks sharing the id `d`, the second one referencing
its own id as a dependency. -/
def exDupD : Task :=
  { id := "d", name := "u", type := .script, configTasks := [],
    dependencies := [], retry_policy := Option.none, timeout := Option.none }

/-- Companion of `exDupD` with the same id. -/
def exDupD' : Task :=
  { id := "d", name := "v", type := .script, configTasks := [],
    dependencies := ["d"], retry_policy := Option.none, timeout := Option.none }

/-- A fresh instance with no variables and no recorded results. -/
def exInstance : Instance :=
  { id := "i", process_id := "p", status := .pending, vars := [],
    task_results := [] }

/-- An engine handler table with no registered handlers. -/
def exNoHandlers : Handlers := fun _ => Option.none

/-- The condition of the spec example, with the numeric literal
`0.5` as the right operand. -/
def exCondLit : Condition :=
  { operator := some "gt", left := some (.str "$score"),
    right := some (.num (1/2)) }

/-- The same comparison with the right operand written as a variable
reference. -/
def exCondVar : Condition :=
  { operator := some "gt", left := some (.str "$score"),
    right := some (.str "$threshold") }

/-- An empty engine. -/
def exEngine0 : Engine := { processes := [], instances := [] }

/-- A process definition with id `p`. -/
def exDef1 : ProcessDefinition :=
  { id := "p", name := "one", version := "1.0.0",
    description := Option.none, tasks := [], vars := [] }

/-- A different process definition with the same id `p`. -/
def exDef2 : ProcessDefinition :=
  { id := "p", name := "two", version := "1.0.0",
    description := Option.none, tasks := [], vars := [] }

/-- A handler that always raises. -/
def exFailFun : Task → Instance → Except PyErr Value :=
  fun _ _ => .error (.handlerError "boom")

/-- A handler table where `script` tasks get the always-failing
handler. -/
def exFailHandlers : Handlers := fun t =>
  if t == TaskType.script then some (.custom exFailFun) else Option.none

/-- A dependency-free script task with retry policy
`{max_retries: 2, delay: 0}`. -/
def exRetryTask : Task :=
  { id := "a", name := "x", type := .script, configTasks := [],
    dependencies := [], retry_policy := some ⟨some 2, some 0⟩,
    timeout := Option.none }

/-- A handler that always succeeds with the string `done`. -/
def exSeqOkFun : Task → Instance → Except PyErr Value :=
  fun _ _ => .ok (.str "done")

/-- Handler table for the sequence scenario: `notification` succeeds,
`script` fails, `sequence` is the built-in composite. -/
def exSeqHandlers : Handlers := fun t =>
  match t with
  | .notification => some (.custom exSeqOkFun)
  | .script => some (.custom exFailFun)
  | .sequence => some .sequence
  | _ => Option.none

/-- Sub-task `A` of the sequence scenario (succeeds). -/
def exSeqA : Task :=
  { id := "A", name := "a", type := .notification, configTasks := [],
    dependencies := [], retry_policy := Option.none, timeout := Option.none }

/-- Sub-task `B` of the sequence scenario (fails). -/
def exSeqB : Task :=
  { id := "B", name := "b", type := .script, configTasks := [],
    dependencies := [], retry_policy := Option.none, timeout := Option.none }

/-- Sub-task `C` of the sequence scenario (never reached). -/
def exSeqC : Task :=
  { id := "C", name := "c", type := .notification, configTasks := [],
    dependencies := [], retry_policy := Option.none, timeout := Option.none }

/-- The sequence composite task over `[A, B, C]`. -/
def exSeqS : Task :=
  { id := "S", name := "s", type := .sequence,
    configTasks := [exSeqA, exSeqB, exSeqC],
    dependencies := [], retry_policy := Option.none, timeout := Option.none }

/-- Unique task identifiers, the standing invariant of the data model
(`Task.id` "unique within its process"). -/
def NodupIds (tasks : List Task) : Prop := (tasks.map Task.id).Nodup

/-- Soundness property of `visit` at a given fuel (see
`visit_sound`). -/
def VisitSoundP (tasks : List Task) (fuel : Nat) : Prop :=
  ∀ visited order task, task ∈ tasks → visited.Nodup →
    mcount tasks visited < fuel →
    ∃ newIds Δ,
      visit tasks fuel visited order task =
        some (newIds ++ visited, order ++ Δ) ∧
      newIds.Perm (Δ.map Task.id) ∧
      (∀ x ∈ newIds, x ∉ visited) ∧
      (newIds ++ visited).Nodup ∧
      (∀ x ∈ newIds, x ∈ tasks.map Task.id) ∧
      (∀ t ∈ Δ, t ∈ tasks) ∧
      task.id ∈ newIds ++ visited

/-- Soundness property of the dependency loop at a given fuel. -/
def VisitDepsSoundP (tasks : List Task) (fuel : Nat) : Prop :=
  ∀ visited order deps, visited.Nodup → mcount tasks visited < fuel →
    ∃ newIds Δ,
      visitDeps tasks fuel visited order deps =
        some (newIds ++ visited, order ++ Δ) ∧
      newIds.Perm (Δ.map Task.id) ∧
      (∀ x ∈ newIds, x ∉ visited) ∧
      (newIds ++ visited).Nodup ∧
      (∀ x ∈ newIds, x ∈ tasks.map Task.id) ∧
      (∀ t ∈ Δ, t ∈ tasks)

/-- The dependency edge the scheduler follows: `u` is the first task
of the list matching one of `t`'s dependency identifiers. -/
def depOf (tasks : List Task) (t u : Task) : Prop :=
  ∃ d ∈ t.dependencies, tasks.find? (fun x => x.id == d) = some u

/-- No task transitively depends on itself through resolved
dependency references. -/
def Acyclic (tasks : List Task) : Prop :=
  ∀ t, ¬ Relation.TransGen (depOf tasks) t t

/-- Every dependency identifier names a task present in the list. -/
def DepsPresent (tasks : List Task) : Prop :=
  ∀ t ∈ tasks, ∀ d ∈ t.dependencies, ∃ u ∈ tasks, u.id = d

/-- A list is topologically consistent when every member's resolved
direct dependencies occur strictly before it. -/
def TopoOK (tasks : List Task) (o : List Task) : Prop :=
  ∀ l1 t l2, o = l1 ++ t :: l2 → ∀ u, depOf tasks t u → u ∈ l1

/-- Ordering property of `visit` at a given fuel, under acyclicity:
provided the already-placed order is topologically consistent and
every in-progress (visited but unplaced) id belongs to a task that
transitively depends on the task being visited, the extended order is
topologically consistent and contains the visited task. -/
def VisitTopoP (tasks : List Task) (fuel : Nat) : Prop :=
  ∀ visited order task,
    task ∈ tasks → visited.Nodup → mcount tasks visited < fuel →
    NodupIds tasks → Acyclic tasks →
    (∀ t ∈ order, t ∈ tasks) →
    (∀ x ∈ order.map Task.id, x ∈ visited) →
    TopoOK tasks order →
    (∀ g ∈ visited, g ∉ order.map Task.id →
      ∃ tg ∈ tasks, tg.id = g ∧ Relation.TransGen (depOf tasks) tg task) →
    ∀ v o, visit tasks fuel visited order task = some (v, o) →
      TopoOK tasks o ∧ task ∈ o

/-- Ordering property of the dependency loop at a given fuel: under
the corresponding invariants relative to the parent task, the
resulting order is topologically consistent and contains every
resolved dependency of the processed identifiers. -/
def VisitDepsTopoP (tasks : List Task) (fuel : Nat) : Prop :=
  ∀ visited order deps (parent : Task),
    parent ∈ tasks → visited.Nodup → mcount tasks visited < fuel →
    NodupIds tasks → Acyclic tasks →
    (∀ t ∈ order, t ∈ tasks) →
    (∀ x ∈ order.map Task.id, x ∈ visited) →
    TopoOK tasks order →
    (∀ d ∈ deps, d ∈ parent.dependencies) →
    (∀ g ∈ visited, g ∉ order.map Task.id →
      ∃ tg ∈ tasks, tg.id = g ∧
        (tg = parent ∨ Relation.TransGen (depOf tasks) tg parent)) →
    ∀ v o, visitDeps tasks fuel visited order deps = some (v, o) →
      TopoOK tasks o ∧
      (∀ d ∈ deps, ∀ u, tasks.find? (fun x => x.id == d) = some u → u ∈ o)


/-- A task with id `ca` depending on `cb`. -/
def exCycA : Task :=
  { id := "ca", name := "x", type := .script, configTasks := [],
    dependencies := ["cb"], retry_policy := Option.none,
    timeout := Option.none }

/-- A task with id `cb` depending back on `ca`, closing a cycle. -/
def exCycB : Task :=
  { id := "cb", name := "y", type := .script, configTasks := [],
    dependencies := ["ca"], retry_policy := Option.none,
    timeout := Option.none }

/-! ## Theorems -/

/-- C6, counterexample: evaluating the spec's example condition
`{operator: "gt", left: "$score", right: 0.5}` raises an
`AttributeError` (the non-string literal `0.5` reaches
`expr.startswith`), both with `score = 0.8` and with `score = 0.3` —
it does not return `true`/`false`. -/
theorem c6_numeric_literal_raises :
    evaluateCondition exCondLit [("score", Value.num (4/5))] =
      .error (.attributeError "object has no attribute startswith") ∧
    evaluateCondition exCondLit [("score", Value.num (3/10))] =
      .error (.attributeError "object has no attribute startswith") := by
  constructor <;> rfl

/-- C6, amended: with a bare numeric literal `0.5` as the right
operand the evaluation raises `AttributeError` for both variable
values; the described comparison behaviour (true at `score = 0.8`,
false at `score = 0.3`, no exception) holds when the numeric operand
is supplied as a variable reference `$threshold` with
`threshold = 0.5`. -/
theorem c6_condition_evaluation_amended :
    evaluateCondition exCondLit [("score", Value.num (4/5))] =
      .error (.attributeError "object has no attribute startswith") ∧
    evaluateCondition exCondVar
      [("score", Value.num (4/5)), ("threshold", Value.num (1/2))] = .ok true ∧
    evaluateCondition exCondVar
      [("score", Value.num (3/10)), ("threshold", Value.num (1/2))] = .ok false := by
  have h1 : ("$score".drop 1) = "score" := by decide
  have h2 : ("$threshold".drop 1) = "threshold" := by decide
  refine ⟨rfl, ?_, ?_⟩ <;>
  · simp [evaluateCondition, exCondVar, getVariableValue, startsDollar, bind,
      Except.bind, h1, h2, List.lookup, pyLt, Value.asNum]
    norm_num

/-- C7, counterexample: constructing a `ProcessDefinition` over a task
list with two tasks of the same identifier succeeds — no
`ValidationError` is raised. -/
theorem c7_duplicate_ids_accepted :
    ProcessDefinition.construct "p" "proc" "1.0.0" Option.none
        [exTaskA, exTaskA'] [] =
      .ok { id := "p", name := "proc", version := "1.0.0",
            description := Option.none, tasks := [exTaskA, exTaskA'],
            vars := [] } ∧
    exTaskA.id = exTaskA'.id ∧ exTaskA.name ≠ exTaskA'.name := by
  refine ⟨rfl, rfl, ?_⟩
  decide

/-- C7, amended: construction of a `ProcessDefinition` never fails —
the class declares no validators, so a task list containing duplicate
identifiers is accepted and stored as given. -/
theorem c7_construction_never_fails
    (id name version : String) (description : Option String)
    (tasks : List Task) (vars : List (String × Value)) :
    ProcessDefinition.construct id name version description tasks vars =
      .ok { id := id, name := name, version := version,
            description := description, tasks := tasks, vars := vars } := rfl

/-- C8, counterexample: with definition `exDef1` (id `p`) registered,
registering the different definition `exDef2` with the same id raises
nothing (`registerProcess` is total) and silently replaces the stored
definition. -/
theorem c8_register_silently_replaces :
    (registerProcess (registerProcess exEngine0 exDef1) exDef2).processes.lookup
        "p" = some exDef2 ∧
    exDef1.name ≠ exDef2.name := by
  refine ⟨rfl, ?_⟩
  decide

/-- C8, amended: registering a definition whose identifier is already
registered succeeds unconditionally and replaces the stored
definition with the new one. -/
theorem c8_register_replaces (engine : Engine) (d d0 : ProcessDefinition)
    (_already : engine.processes.lookup d.id = some d0) :
    (registerProcess engine d).processes.lookup d.id = some d := by
  simp [registerProcess]

/-- C8 witness: instantiating the replacement theorem at the concrete
engine holding `exDef1`. -/
theorem c8_register_replaces_witness :
    (registerProcess exEngine0 exDef1).processes.lookup exDef2.id = some exDef1 ∧
    (registerProcess (registerProcess exEngine0 exDef1) exDef2).processes.lookup
        exDef2.id = some exDef2 :=
  ⟨rfl, c8_register_replaces (registerProcess exEngine0 exDef1) exDef2 exDef1 rfl⟩

/-- C9: starting an unregistered process id fails with the
process-not-found error (the `ValueError` the spec's taxonomy names
`ProcessNotFoundError`) and returns the engine unchanged — in
particular no instance is created. -/
theorem c9_start_unregistered_fails (engine : Engine) (now process_id : String)
    (vars : Option (List (String × Value)))
    (h : engine.processes.lookup process_id = Option.none) :
    startProcess engine now process_id vars =
      (.error (ProcessNotFoundErr process_id), engine) := by
  simp [startProcess, h]

/-- C9 witness: the empty engine has no process `q`; starting it fails
and leaves the engine unchanged. -/
theorem c9_start_unregistered_fails_witness :
    exEngine0.processes.lookup "q" = Option.none ∧
    startProcess exEngine0 "0" "q" Option.none =
      (.error (ProcessNotFoundErr "q"), exEngine0) :=
  ⟨rfl, c9_start_unregistered_fails exEngine0 "0" "q" Option.none rfl⟩

/-- C1, counterexample: the task list `[exTaskA, exTaskA']` — two
distinct tasks sharing the id `a`, no dependencies, hence acyclic with
all references present — is not mapped to a permutation of the input:
the scheduler's visited-id set drops the second task, returning a
one-element list. -/
theorem c1_duplicate_id_not_permutation :
    getExecutionOrder [exTaskA, exTaskA'] = some [exTaskA] ∧
    ¬ ([exTaskA].Perm [exTaskA, exTaskA']) := by
  constructor
  · simp [getExecutionOrder, visit, visitDeps, exTaskA, exTaskA', List.foldl]
  · intro h
    simpa using h.length_eq

/-- C10, counterexample: on the task list `[exDupD, exDupD']` — two
distinct tasks sharing the id `d` — the returned list contains the
second input task zero times, not exactly once. -/
theorem c10_duplicate_id_task_dropped :
    getExecutionOrder [exDupD, exDupD'] = some [exDupD] ∧
    exDupD' ∉ [exDupD] := by
  constructor
  · simp [getExecutionOrder, visit, visitDeps, exDupD, exDupD', List.foldl]
  · intro h
    rw [List.mem_singleton] at h
    exact absurd (congrArg Task.name h) (by decide)

/-- Recording a result for a different task id does not affect a
dependency check. -/
theorem depSatisfied_record_ne (inst : Instance) (tid : String) (r : TaskResult)
    (d : String) (h : d ≠ tid) :
    depSatisfied (inst.record tid r) d = depSatisfied inst d := by
  have hb : (d == tid) = false := beq_eq_false_iff_ne.mpr h
  simp [depSatisfied, Instance.record, List.lookup, hb]

/-- Changing only the variables map does not affect a dependency check. -/
theorem depSatisfied_vars (inst : Instance) (kv : List (String × Value))
    (d : String) :
    depSatisfied { inst with vars := kv } d = depSatisfied inst d := rfl

/-- If every dependency is satisfied the gate does not fire. -/
theorem hasUnmet_false_of (inst : Instance) (task : Task)
    (h : ∀ d ∈ task.dependencies, depSatisfied inst d = true) :
    hasUnmetDependency inst task = false := by
  simp only [hasUnmetDependency, List.any_eq_false]
  intro d hd
  simp [h d hd]

/-- Satisfied dependencies stay satisfied when the task records its own
result (the task is not its own dependency). -/
theorem depsOK_record (inst : Instance) (task : Task) (r : TaskResult)
    (hself : task.id ∉ task.dependencies)
    (h : ∀ d ∈ task.dependencies, depSatisfied inst d = true) :
    ∀ d ∈ task.dependencies, depSatisfied (inst.record task.id r) d = true := by
  intro d hd
  have hne : d ≠ task.id := fun he => hself (he ▸ hd)
  rw [depSatisfied_record_ne inst task.id r d hne]
  exact h d hd

/-- C2, counterexample: running an instance over a single `script`
task with an empty handler table (no handler registered for `script`)
does not abort the run: the task's result is recorded `failed`, yet
the instance's overall status becomes `completed`, not `failed`. -/
theorem c2_missing_handler_instance_completes :
    (executeInstance 5 exNoHandlers exInstance [exTaskA]).1.status =
      .completed ∧
    ((executeInstance 5 exNoHandlers exInstance
        [exTaskA]).1.task_results.lookup "a").map TaskResult.status =
      some .failed ∧
    TaskStatus.completed ≠ TaskStatus.failed := by
  refine ⟨?_, ?_, by decide⟩
  · simp [executeInstance, getExecutionOrder, visit, visitDeps, exTaskA,
      exInstance, List.foldl, executeTask, hasUnmetDependency, exNoHandlers,
      Instance.record]
  · simp [executeInstance, getExecutionOrder, visit, visitDeps, exTaskA,
      exInstance, List.foldl, executeTask, hasUnmetDependency, exNoHandlers,
      Instance.record, List.lookup, TaskResult.status]

/-- C4: a task with a dependency whose recorded result is absent or
not `completed` (hypothesis `h`, which is exactly `depSatisfied = false`
for that dependency) is recorded `skipped` and its handler is never
invoked: the execution returns the `skipped` result, records only it,
and produces an empty invocation log. -/
theorem c4_unmet_dependency_skips (fuel : Nat) (handlers : Handlers)
    (inst : Instance) (task : Task)
    (h : ∃ d ∈ task.dependencies, ∀ r,
      inst.task_results.lookup d = some r → r.status ≠ TaskStatus.completed) :
    executeTask (fuel + 1) handlers inst task =
      ((⟨.skipped, Option.none, Option.none⟩ : TaskResult),
       inst.record task.id ⟨.skipped, Option.none, Option.none⟩, []) := by
  obtain ⟨d, hd, hbad⟩ := h
  have hds : depSatisfied inst d = false := by
    unfold depSatisfied
    cases hlk : inst.task_results.lookup d with
    | none => rfl
    | some r => simpa using hbad r hlk
  have hum : hasUnmetDependency inst task = true := by
    unfold hasUnmetDependency
    rw [List.any_eq_true]
    exact ⟨d, hd, by simp [hds]⟩
  simp [executeTask, hum]

/-- C4 witness: task `b` depends on `a`, which has no recorded result
in the fresh instance; executing `b` skips it with no handler
invocation. -/
theorem c4_unmet_dependency_skips_witness :
    (∃ d ∈ exTaskB.dependencies, ∀ r,
      exInstance.task_results.lookup d = some r →
        r.status ≠ TaskStatus.completed) ∧
    executeTask 4 exNoHandlers exInstance exTaskB =
      ((⟨.skipped, Option.none, Option.none⟩ : TaskResult),
       exInstance.record exTaskB.id ⟨.skipped, Option.none, Option.none⟩, []) :=
  ⟨⟨"a", by simp [exTaskB], by simp [exInstance]⟩,
   c4_unmet_dependency_skips 3 exNoHandlers exInstance exTaskB
     ⟨"a", by simp [exTaskB], by simp [exInstance]⟩⟩

/-- One execution round of a task whose handler fails, with a
configured retry policy: record `running` then `failed` with the error
message, log the invocation, and continue into `_handle_retry`. -/
theorem execFailStep (n : Nat) (handlers : Handlers) (task : Task)
    (f : Task → Instance → Except PyErr Value) (rp : RetryPolicy)
    (i : Instance) (e : PyErr)
    (hh : handlers task.type = some (.custom f))
    (hum : hasUnmetDependency i task = false)
    (he : f task (i.record task.id ⟨.running, Option.none, Option.none⟩) = .error e)
    (hrp : task.retry_policy = some rp) :
    executeTask (n + 1) handlers i task =
      ((⟨.failed, Option.none, some e.msg⟩ : TaskResult),
       (handleRetry n handlers
           ((i.record task.id ⟨.running, Option.none, Option.none⟩).record
             task.id ⟨.failed, Option.none, some e.msg⟩) task rp).1,
       task.id ::
         (handleRetry n handlers
             ((i.record task.id ⟨.running, Option.none, Option.none⟩).record
               task.id ⟨.failed, Option.none, some e.msg⟩) task rp).2) := by
  rcases hHR : handleRetry n handlers
      ((i.record task.id ⟨.running, Option.none, Option.none⟩).record
        task.id ⟨.failed, Option.none, some e.msg⟩) task rp with ⟨i4, lg⟩
  simp [executeTask, hum, hh, runHandler, he, hrp, hHR]

/-- One `_handle_retry` round below the retry bound: increment the
counter variable and re-invoke `_execute_task` (whose returned result
is discarded; its instance and log are kept). -/
theorem handleRetryStep (n : Nat) (handlers : Handlers) (task : Task)
    (i : Instance) (c : ℚ)
    (hc : ((i.vars.lookup (task.id ++ "_retries")).getD (.num 0)).asNum.getD 0 = c)
    (hlt : c < 2) :
    handleRetry n handlers i task ⟨some 2, some 0⟩ =
      ((executeTask n handlers
          { i with vars := (task.id ++ "_retries", Value.num (c + 1)) :: i.vars }
          task).2.1,
       (executeTask n handlers
          { i with vars := (task.id ++ "_retries", Value.num (c + 1)) :: i.vars }
          task).2.2) := by
  rcases hE : executeTask n handlers
      { i with vars := (task.id ++ "_retries", Value.num (c + 1)) :: i.vars }
      task with ⟨r, i2, lg⟩
  simp [handleRetry, hc, hlt, hE]

/-- The `_handle_retry` round at the retry bound: the counter equals
`max_retries`, so no further attempt is made. -/
theorem handleRetryStop (n : Nat) (handlers : Handlers) (task : Task)
    (i : Instance)
    (hc : ((i.vars.lookup (task.id ++ "_retries")).getD (.num 0)).asNum.getD 0 = 2) :
    handleRetry n handlers i task ⟨some 2, some 0⟩ = (i, []) := by
  simp [handleRetry, hc]

/-- C3: for a task whose registered handler always raises, with retry
policy `{max_retries: 2, delay: 0}`, all dependencies satisfied
(`depSatisfied`), no self-dependency, and a fresh retry counter, the
handler is invoked exactly 3 times (the invocation log is three
occurrences of the task id) and the final recorded result status is
`failed`. -/
theorem c3_retry_three_invocations (fuel : Nat) (handlers : Handlers)
    (inst : Instance) (task : Task)
    (f : Task → Instance → Except PyErr Value)
    (hh : handlers task.type = some (.custom f))
    (hfail : ∀ t i, ∃ e, f t i = Except.error e)
    (hrp : task.retry_policy = some ⟨some 2, some 0⟩)
    (hself : task.id ∉ task.dependencies)
    (hdeps : ∀ d ∈ task.dependencies, depSatisfied inst d = true)
    (hctr : inst.vars.lookup (task.id ++ "_retries") = Option.none) :
    (executeTask (fuel + 3) handlers inst task).2.2 =
      [task.id, task.id, task.id] ∧
    (((executeTask (fuel + 3) handlers inst task).2.1.task_results.lookup
        task.id).map TaskResult.status) = some TaskStatus.failed := by
  set tid := task.id with htid
  set key := tid ++ "_retries" with hkey
  set run : TaskResult := ⟨.running, Option.none, Option.none⟩ with hrun
  -- round 1 states
  set iR0 := inst.record tid run with hiR0
  obtain ⟨e1, he1⟩ := hfail task iR0
  set i3 := iR0.record tid ⟨.failed, Option.none, some e1.msg⟩ with hi3
  set i3' := { i3 with vars := (key, Value.num (0 + 1)) :: i3.vars } with hi3'
  set iR1 := i3'.record tid run with hiR1
  obtain ⟨e2, he2⟩ := hfail task iR1
  set i6 := iR1.record tid ⟨.failed, Option.none, some e2.msg⟩ with hi6
  set i6' := { i6 with vars := (key, Value.num (1 + 1)) :: i6.vars } with hi6'
  set iR2 := i6'.record tid run with hiR2
  obtain ⟨e3, he3⟩ := hfail task iR2
  set i9 := iR2.record tid ⟨.failed, Option.none, some e3.msg⟩ with hi9
  -- dependency gates stay open in every state
  have d0 := hdeps
  have dR0 := depsOK_record inst task run hself d0
  have d3 := depsOK_record iR0 task ⟨.failed, Option.none, some e1.msg⟩ hself dR0
  have d3' : ∀ d ∈ task.dependencies, depSatisfied i3' d = true := fun d hd =>
    (depSatisfied_vars i3 _ d).trans (d3 d hd)
  have dR1 := depsOK_record i3' task run hself d3'
  have d6 := depsOK_record iR1 task ⟨.failed, Option.none, some e2.msg⟩ hself dR1
  have d6' : ∀ d ∈ task.dependencies, depSatisfied i6' d = true := fun d hd =>
    (depSatisfied_vars i6 _ d).trans (d6 d hd)
  have hum0 : hasUnmetDependency inst task = false := hasUnmet_false_of _ _ d0
  have hum1 : hasUnmetDependency i3' task = false := hasUnmet_false_of _ _ d3'
  have hum2 : hasUnmetDependency i6' task = false := hasUnmet_false_of _ _ d6'
  -- retry counters
  have hc0 : ((i3.vars.lookup key).getD (.num 0)).asNum.getD 0 = 0 := by
    simp [hi3, hiR0, Instance.record, hctr, Value.asNum]
  have hc1 : ((i6.vars.lookup key).getD (.num 0)).asNum.getD 0 = 1 := by
    simp [hi6, hiR1, hi3', Instance.record, List.lookup, Value.asNum]
  have hc2 : ((i9.vars.lookup key).getD (.num 0)).asNum.getD 0 = 2 := by
    simp [hi9, hiR2, hi6', Instance.record, List.lookup, Value.asNum]
    norm_num
  -- round 3 (last attempt), then wind outward
  have R3 : handleRetry fuel handlers i9 task ⟨some 2, some 0⟩ = (i9, []) :=
    handleRetryStop fuel handlers task i9 hc2
  have E3 : executeTask (fuel + 1) handlers i6' task =
      ((⟨.failed, Option.none, some e3.msg⟩ : TaskResult), i9, [tid]) := by
    have := execFailStep fuel handlers task f ⟨some 2, some 0⟩ i6' e3 hh hum2 he3 hrp
    rw [this, R3]
  have R2 : handleRetry (fuel + 1) handlers i6 task ⟨some 2, some 0⟩ =
      (i9, [tid]) := by
    have := handleRetryStep (fuel + 1) handlers task i6 1 hc1 (by norm_num)
    rw [this, E3]
  have E2 : executeTask (fuel + 1 + 1) handlers i3' task =
      ((⟨.failed, Option.none, some e2.msg⟩ : TaskResult), i9, [tid, tid]) := by
    have := execFailStep (fuel + 1) handlers task f ⟨some 2, some 0⟩ i3' e2 hh hum1 he2 hrp
    rw [this, R2]
  have R1 : handleRetry (fuel + 1 + 1) handlers i3 task ⟨some 2, some 0⟩ =
      (i9, [tid, tid]) := by
    have := handleRetryStep (fuel + 1 + 1) handlers task i3 0 hc0 (by norm_num)
    rw [this, E2]
  have E1 : executeTask (fuel + 1 + 1 + 1) handlers inst task =
      ((⟨.failed, Option.none, some e1.msg⟩ : TaskResult), i9, [tid, tid, tid]) := by
    have := execFailStep (fuel + 1 + 1) handlers task f ⟨some 2, some 0⟩ inst e1 hh hum0 he1 hrp
    rw [this, R1]
  have hf3 : fuel + 3 = fuel + 1 + 1 + 1 := rfl
  rw [hf3, E1]
  constructor
  · rfl
  · simp [hi9, Instance.record, List.lookup, TaskResult.status]

/-- C3 witness: the concrete always-failing script handler on the
retry task at fuel 3. -/
theorem c3_retry_three_invocations_witness :
    (∀ t i, ∃ e, exFailFun t i = Except.error e) ∧
    (executeTask (0 + 3) exFailHandlers exInstance exRetryTask).2.2 =
      [exRetryTask.id, exRetryTask.id, exRetryTask.id] ∧
    (((executeTask (0 + 3) exFailHandlers exInstance
        exRetryTask).2.1.task_results.lookup exRetryTask.id).map
      TaskResult.status) = some TaskStatus.failed :=
  ⟨fun _ _ => ⟨.handlerError "boom", rfl⟩,
   c3_retry_three_invocations 0 exFailHandlers exInstance exRetryTask exFailFun
     rfl (fun _ _ => ⟨.handlerError "boom", rfl⟩) rfl (by simp [exRetryTask])
     (by simp [exRetryTask]) rfl⟩

/-- One execution round of a task whose handler succeeds: record
`running` then `completed` with the output, logging the invocation. -/
theorem execOkStep (n : Nat) (handlers : Handlers) (task : Task)
    (f : Task → Instance → Except PyErr Value) (i : Instance) (v : Value)
    (hh : handlers task.type = some (.custom f))
    (hum : hasUnmetDependency i task = false)
    (he : f task (i.record task.id ⟨.running, Option.none, Option.none⟩) = .ok v) :
    executeTask (n + 1) handlers i task =
      ((⟨.completed, some v, Option.none⟩ : TaskResult),
       (i.record task.id ⟨.running, Option.none, Option.none⟩).record task.id
         ⟨.completed, some v, Option.none⟩,
       [task.id]) := by
  simp [executeTask, hum, hh, runHandler, he]

/-- One execution round of a task whose handler fails and that has no
retry policy: record `running` then `failed`, logging the invocation,
with no retry. -/
theorem execFailStepNoRetry (n : Nat) (handlers : Handlers) (task : Task)
    (f : Task → Instance → Except PyErr Value) (i : Instance) (e : PyErr)
    (hh : handlers task.type = some (.custom f))
    (hum : hasUnmetDependency i task = false)
    (he : f task (i.record task.id ⟨.running, Option.none, Option.none⟩) = .error e)
    (hrp : task.retry_policy = Option.none) :
    executeTask (n + 1) handlers i task =
      ((⟨.failed, Option.none, some e.msg⟩ : TaskResult),
       (i.record task.id ⟨.running, Option.none, Option.none⟩).record task.id
         ⟨.failed, Option.none, some e.msg⟩,
       [task.id]) := by
  simp [executeTask, hum, hh, runHandler, he, hrp]

/-- C5: a `sequence` composite with configured sub-tasks `[A, B, C]`
(dependency-free, no retry policies) where `A`'s handler succeeds and
`B`'s fails returns exactly two results — `A`'s `completed` and `B`'s
`failed` — the composite itself completes, and `C`'s handler is never
invoked (the invocation log is exactly `[S, A, B]`). -/
theorem c5_sequence_stops_after_failure (fuel : Nat) (handlers : Handlers)
    (inst : Instance) (S A B C : Task)
    (fA fB : Task → Instance → Except PyErr Value)
    (hS : handlers S.type = some .sequence)
    (hcfg : S.configTasks = [A, B, C])
    (hSdep : S.dependencies = [])
    (hAdep : A.dependencies = []) (hBdep : B.dependencies = [])
    (_hArp : A.retry_policy = Option.none) (hBrp : B.retry_policy = Option.none)
    (hA : handlers A.type = some (.custom fA))
    (hB : handlers B.type = some (.custom fB))
    (hAok : ∀ t i, ∃ v, fA t i = Except.ok v)
    (hBfail : ∀ t i, ∃ e, fB t i = Except.error e)
    (hCid : C.id ≠ S.id ∧ C.id ≠ A.id ∧ C.id ≠ B.id) :
    ∃ vA eB,
      (executeTask (fuel + 2) handlers inst S).1.output =
        some (.list [.result ⟨.completed, some vA, Option.none⟩,
                     .result ⟨.failed, Option.none, some (PyErr.msg eB)⟩]) ∧
      (executeTask (fuel + 2) handlers inst S).1.status = .completed ∧
      (executeTask (fuel + 2) handlers inst S).2.2 = [S.id, A.id, B.id] ∧
      C.id ∉ (executeTask (fuel + 2) handlers inst S).2.2 := by
  have humS : hasUnmetDependency inst S = false := by
    simp [hasUnmetDependency, hSdep]
  set instS1 := inst.record S.id ⟨.running, Option.none, Option.none⟩ with hinstS1
  have humA : hasUnmetDependency instS1 A = false := by
    simp [hasUnmetDependency, hAdep]
  obtain ⟨vA, heA⟩ := hAok A (instS1.record A.id ⟨.running, Option.none, Option.none⟩)
  have EA := execOkStep fuel handlers A fA instS1 vA hA humA heA
  set iA := (instS1.record A.id ⟨.running, Option.none, Option.none⟩).record A.id
    ⟨.completed, some vA, Option.none⟩ with hiA
  have humB : hasUnmetDependency iA B = false := by
    simp [hasUnmetDependency, hBdep]
  obtain ⟨eB, heB⟩ := hBfail B (iA.record B.id ⟨.running, Option.none, Option.none⟩)
  have EB := execFailStepNoRetry fuel handlers B fB iA eB hB humB heB hBrp
  set iB := (iA.record B.id ⟨.running, Option.none, Option.none⟩).record B.id
    ⟨.failed, Option.none, some eB.msg⟩ with hiB
  have HS : handleSequence (fuel + 1) handlers instS1 [A, B, C] =
      ([⟨.completed, some vA, Option.none⟩, ⟨.failed, Option.none, some eB.msg⟩],
       iB, [A.id, B.id]) := by
    simp [handleSequence, EA, EB, TaskResult.status]
  have E : executeTask (fuel + 1 + 1) handlers inst S =
      ((⟨.completed,
          some (.list [.result ⟨.completed, some vA, Option.none⟩,
                       .result ⟨.failed, Option.none, some eB.msg⟩]),
          Option.none⟩ : TaskResult),
       iB.record S.id
         ⟨.completed,
          some (.list [.result ⟨.completed, some vA, Option.none⟩,
                       .result ⟨.failed, Option.none, some eB.msg⟩]),
          Option.none⟩,
       S.id :: [A.id, B.id]) := by
    simp [executeTask, humS, hS, runHandler, hcfg, HS]
  refine ⟨vA, eB, ?_, ?_, ?_, ?_⟩ <;>
    simp [show fuel + 2 = fuel + 1 + 1 from rfl, E, TaskResult.output,
      TaskResult.status, hCid.1, hCid.2.1, hCid.2.2]

/-- C5 witness: the concrete sequence scenario at fuel 2. -/
theorem c5_sequence_stops_after_failure_witness :
    (∀ t i, ∃ v, exSeqOkFun t i = Except.ok v) ∧
    (∃ vA eB,
      (executeTask (0 + 2) exSeqHandlers exInstance exSeqS).1.output =
        some (.list [.result ⟨.completed, some vA, Option.none⟩,
                     .result ⟨.failed, Option.none, some (PyErr.msg eB)⟩]) ∧
      (executeTask (0 + 2) exSeqHandlers exInstance exSeqS).1.status =
        .completed ∧
      (executeTask (0 + 2) exSeqHandlers exInstance exSeqS).2.2 =
        [exSeqS.id, exSeqA.id, exSeqB.id] ∧
      exSeqC.id ∉ (executeTask (0 + 2) exSeqHandlers exInstance exSeqS).2.2) :=
  ⟨fun _ _ => ⟨.str "done", rfl⟩,
   c5_sequence_stops_after_failure 0 exSeqHandlers exInstance exSeqS exSeqA
     exSeqB exSeqC exSeqOkFun exFailFun rfl rfl rfl rfl rfl rfl rfl rfl rfl
     (fun _ _ => ⟨.str "done", rfl⟩)
     (fun _ _ => ⟨.handlerError "boom", rfl⟩)
     ⟨by decide, by decide, by decide⟩⟩

/-- List containment as a decidable membership test. -/
theorem contains_eq_decide_mem (v : List String) (y : String) :
    v.contains y = decide (y ∈ v) := List.elem_eq_mem y v

/-- Marking one present, unvisited id shrinks the unvisited count by
exactly one. -/
theorem filter_not_contains_cons_len (x : String) (visited : List String)
    (hxv : x ∉ visited) :
    ∀ l : List String, l.Nodup → x ∈ l →
    (l.filter (fun i => !(x :: visited).contains i)).length + 1 =
      (l.filter (fun i => !visited.contains i)).length := by
  intro l
  induction l with
  | nil => intro _ hx; cases hx
  | cons a l ih =>
    intro hl hx
    rcases List.mem_cons.mp hx with hax | hxl
    · subst hax
      have hnl : x ∉ l := (List.nodup_cons.mp hl).1
      have hfeq : List.filter (fun i => !(x :: visited).contains i) l =
          List.filter (fun i => !visited.contains i) l := by
        apply List.filter_congr
        intro y hy
        have hya : ¬ (y = x) := fun h => hnl (h ▸ hy)
        simp [contains_eq_decide_mem, hya]
      rw [List.filter_cons, List.filter_cons, hfeq]
      simp [contains_eq_decide_mem, hxv]
    · have hax : ¬ (a = x) := by
        rintro rfl
        exact (List.nodup_cons.mp hl).1 hxl
      have heq : (!(x :: visited).contains a) = (!visited.contains a) := by
        simp [contains_eq_decide_mem, hax]
      rw [List.filter_cons, List.filter_cons, heq]
      have hrec := ih (List.nodup_cons.mp hl).2 hxl
      cases hv : (!visited.contains a)
      · simp only [Bool.false_eq_true, if_false]
        omega
      · simp only [if_true, List.length_cons]
        omega

/-- The scheduler measure decreases when a present, unvisited id is
added to the visited set. -/
theorem mcount_cons (tasks : List Task) (visited : List String) (x : String)
    (hx : x ∈ tasks.map Task.id) (hxv : x ∉ visited) :
    mcount tasks (x :: visited) + 1 = mcount tasks visited := by
  unfold mcount
  exact filter_not_contains_cons_len x visited hxv (tasks.map Task.id).dedup
    (List.nodup_dedup _) (List.mem_dedup.mpr hx)

/-- The scheduler measure is antitone in the visited set. -/
theorem mcount_mono (tasks : List Task) (v w : List String) (h : v ⊆ w) :
    mcount tasks w ≤ mcount tasks v := by
  unfold mcount
  rw [← List.countP_eq_length_filter, ← List.countP_eq_length_filter]
  apply List.countP_mono_left
  intro a _ ha
  simp only [contains_eq_decide_mem] at ha ⊢
  simp only [Bool.not_eq_true', decide_eq_false_iff_not] at ha
  simp only [Bool.not_eq_true', decide_eq_false_iff_not]
  exact fun hv => ha (h hv)

/-- The canonical fuel of `getExecutionOrder` strictly bounds the
measure for every visited set. -/
theorem mcount_lt_fuel (tasks : List Task) (visited : List String) :
    mcount tasks visited < (tasks.map Task.id).dedup.length + 1 :=
  Nat.lt_succ_of_le (List.length_filter_le _ _)

/-- Dependency-loop soundness, given visit soundness at the same fuel:
the loop succeeds and returns the input visited set and order extended
by matching new ids and newly appended tasks. -/
theorem visitDeps_sound_of (tasks : List Task) (fuel : Nat)
    (hP : VisitSoundP tasks fuel) : VisitDepsSoundP tasks fuel := by
  intro visited order deps
  induction deps generalizing visited order with
  | nil =>
    intro hnd hfl
    exact ⟨[], [], by simp [visitDeps], by simp, by simp, by simpa using hnd,
      by simp, by simp⟩
  | cons d rest ih =>
    intro hnd hfl
    cases hfind : tasks.find? (fun t => t.id == d) with
    | none =>
      obtain ⟨n, Δ, heq, hp, hnv, hnd2, hids, hsub⟩ := ih visited order hnd hfl
      exact ⟨n, Δ, by simp [visitDeps, hfind, heq], hp, hnv, hnd2, hids, hsub⟩
    | some dep =>
      have hdep : dep ∈ tasks := List.mem_of_find?_eq_some hfind
      obtain ⟨n1, Δ1, e1, p1, nv1, nd1, ids1, sub1, _⟩ :=
        hP visited order dep hdep hnd hfl
      have hfl1 : mcount tasks (n1 ++ visited) < fuel :=
        lt_of_le_of_lt
          (mcount_mono tasks visited (n1 ++ visited)
            (List.subset_append_right n1 visited)) hfl
      obtain ⟨n2, Δ2, e2, p2, nv2, nd2, ids2, sub2⟩ :=
        ih (n1 ++ visited) (order ++ Δ1) nd1 hfl1
      refine ⟨n2 ++ n1, Δ1 ++ Δ2, ?_, ?_, ?_, ?_, ?_, ?_⟩
      · simp [visitDeps, hfind, e1, e2, List.append_assoc]
      · rw [List.map_append]
        exact (p2.append p1).trans List.perm_append_comm
      · intro x hx
        rcases List.mem_append.mp hx with h2 | h1
        · exact fun hv => nv2 x h2 (List.mem_append.mpr (Or.inr hv))
        · exact nv1 x h1
      · rw [List.append_assoc]
        exact nd2
      · intro x hx
        rcases List.mem_append.mp hx with h2 | h1
        · exact ids2 x h2
        · exact ids1 x h1
      · intro t ht
        rcases List.mem_append.mp ht with h1 | h2
        · exact sub1 t h1
        · exact sub2 t h2

/-- Soundness of `visit` at every fuel: with the measure below the
fuel, `visit` succeeds; the newly visited ids are exactly (up to
permutation) the ids of the newly appended tasks, they are fresh,
uniqueness of the visited set is preserved, everything new comes from
the task list, and the visited task's id is visited afterwards. -/
theorem visit_sound (tasks : List Task) :
    ∀ fuel, VisitSoundP tasks fuel := by
  intro fuel
  induction fuel with
  | zero => intro visited order task _ _ hfl; omega
  | succ f ihP =>
    intro visited order task htask hnd hfl
    by_cases hvis : task.id ∈ visited
    · exact ⟨[], [], by simp [visit, hvis], by simp, by simp,
        by simpa using hnd, by simp, by simp,
        by simpa using hvis⟩
    · have hid : task.id ∈ tasks.map Task.id := List.mem_map_of_mem Task.id htask
      have hnd' : (task.id :: visited).Nodup := List.nodup_cons.mpr ⟨hvis, hnd⟩
      have hfl' : mcount tasks (task.id :: visited) < f := by
        have := mcount_cons tasks visited task.id hid hvis
        omega
      obtain ⟨n, Δ, e, p, nv, nd2, ids, sub⟩ :=
        visitDeps_sound_of tasks f ihP (task.id :: visited) order
          task.dependencies hnd' hfl'
      refine ⟨n ++ [task.id], Δ ++ [task], ?_, ?_, ?_, ?_, ?_, ?_, ?_⟩
      · simp [visit, hvis, e, List.append_assoc]
      · rw [List.map_append, List.map_singleton]
        exact p.append (List.Perm.refl _)
      · intro x hx
        rcases List.mem_append.mp hx with h1 | h2
        · exact fun hv => nv x h1 (List.mem_cons_of_mem _ hv)
        · rw [List.mem_singleton] at h2
          exact h2 ▸ hvis
      · have : (n ++ [task.id]) ++ visited = n ++ (task.id :: visited) := by
          simp [List.append_assoc]
        rw [this]
        exact nd2
      · intro x hx
        rcases List.mem_append.mp hx with h1 | h2
        · exact ids x h1
        · rw [List.mem_singleton] at h2
          exact h2 ▸ hid
      · intro t ht
        rcases List.mem_append.mp ht with h1 | h2
        · exact sub t h1
        · rw [List.mem_singleton] at h2
          exact h2 ▸ htask
      · simp

/-- Soundness of the top-level loop of `_get_execution_order`:
starting from any consistent visited/order pair, the fold succeeds and
every pending task's id ends up visited. -/
theorem foldl_visit_sound (tasks : List Task) (fuel : Nat)
    (hfuel : ∀ visited, mcount tasks visited < fuel) :
    ∀ (pending : List Task) (v : List String) (o : List Task),
      (∀ t ∈ pending, t ∈ tasks) → v.Nodup → v.Perm (o.map Task.id) →
      (∀ t ∈ o, t ∈ tasks) →
      ∃ v' o',
        List.foldl
          (fun acc task =>
            match acc with
            | some (v, o) => visit tasks fuel v o task
            | Option.none => Option.none)
          (some (v, o)) pending = some (v', o') ∧
        v'.Nodup ∧ v'.Perm (o'.map Task.id) ∧ (∀ t ∈ o', t ∈ tasks) ∧
        (∀ t ∈ pending, t.id ∈ v') ∧ (∀ x ∈ v, x ∈ v') := by
  intro pending
  induction pending with
  | nil =>
    intro v o _ hnd hperm hsub
    exact ⟨v, o, rfl, hnd, hperm, hsub, by simp, fun x hx => hx⟩
  | cons t rest ih =>
    intro v o hpend hnd hperm hsub
    obtain ⟨n, Δ, e, p, nv, nd, ids, sub, tmem⟩ :=
      visit_sound tasks fuel v o t (hpend t (List.mem_cons_self t rest)) hnd
        (hfuel v)
    have hperm' : (n ++ v).Perm ((o ++ Δ).map Task.id) := by
      rw [List.map_append]
      exact (p.append hperm).trans List.perm_append_comm
    have hsub' : ∀ u ∈ o ++ Δ, u ∈ tasks := by
      intro u hu
      rcases List.mem_append.mp hu with h1 | h2
      · exact hsub u h1
      · exact sub u h2
    obtain ⟨v', o', e', hnd', hperm'', hsub'', hpend', hmono⟩ :=
      ih (n ++ v) (o ++ Δ) (fun u hu => hpend u (List.mem_cons_of_mem t hu))
        nd hperm' hsub'
    refine ⟨v', o', ?_, hnd', hperm'', hsub'', ?_, ?_⟩
    · simpa [e] using e'
    · intro u hu
      rcases List.mem_cons.mp hu with h1 | h2
      · exact h1 ▸ hmono t.id tmem
      · exact hpend' u h2
    · intro x hx
      exact hmono x (List.mem_append.mpr (Or.inr hx))

/-- The scheduler always succeeds (the canonical fuel is never
exhausted, which is the termination of the source recursion), its
output consists of tasks of the input, and the visited ids match the
output ids one for one and cover every input task's id. -/
theorem getExecutionOrder_sound (tasks : List Task) :
    ∃ (v : List String) (order : List Task),
      getExecutionOrder tasks = some order ∧
      v.Nodup ∧ v.Perm (order.map Task.id) ∧ (∀ t ∈ order, t ∈ tasks) ∧
      (∀ t ∈ tasks, t.id ∈ v) := by
  obtain ⟨v', o', e, hnd, hperm, hsub, hpend, _⟩ :=
    foldl_visit_sound tasks ((tasks.map Task.id).dedup.length + 1)
      (fun visited => mcount_lt_fuel tasks visited) tasks [] []
      (fun t ht => ht) List.nodup_nil (by simp) (by simp)
  exact ⟨v', o', by simp [getExecutionOrder, e], hnd, hperm, hsub, hpend⟩

/-- Termination of the scheduler on every finite task list, cyclic or
dangling dependency references included. -/
theorem getExecutionOrder_terminates (tasks : List Task) :
    ∃ order, getExecutionOrder tasks = some order := by
  obtain ⟨v, order, e, _⟩ := getExecutionOrder_sound tasks
  exact ⟨order, e⟩

/-- With unique ids, a task of the list is determined by its id. -/
theorem task_eq_of_id_eq (tasks : List Task) (h : NodupIds tasks)
    (t u : Task) (ht : t ∈ tasks) (hu : u ∈ tasks) (hid : u.id = t.id) :
    u = t := by
  exact List.inj_on_of_nodup_map h hu ht hid

/-- With unique task ids the scheduler's output is a permutation of
the input. -/
theorem getExecutionOrder_perm (tasks : List Task) (h : NodupIds tasks) :
    ∃ order, getExecutionOrder tasks = some order ∧ order.Perm tasks := by
  obtain ⟨v, order, e, hnd, hperm, hsub, hids⟩ := getExecutionOrder_sound tasks
  have hmapnd : (order.map Task.id).Nodup := hperm.nodup hnd
  have hond : order.Nodup := List.Nodup.of_map _ hmapnd
  have htnd : tasks.Nodup := List.Nodup.of_map _ h
  have htsub : ∀ t ∈ tasks, t ∈ order := by
    intro t ht
    have : t.id ∈ order.map Task.id := (hperm.mem_iff).mp (hids t ht)
    obtain ⟨u, hu, huid⟩ := List.mem_map.mp this
    exact (task_eq_of_id_eq tasks h t u ht (hsub u hu) huid) ▸ hu
  exact ⟨order, e,
    (List.Nodup.subperm hond hsub).antisymm (List.Nodup.subperm htnd htsub)⟩

/-- C10, amended: for every finite task list whose task identifiers
are distinct — including lists whose dependency references form a
cycle or dangle — `_get_execution_order` terminates (the recursion
never exceeds the distinct-id depth bound) and returns a list in which
each input task appears exactly once; without the distinct-id
hypothesis termination still holds. -/
theorem c10_scheduler_terminates_unique (tasks : List Task) :
    (∃ order, getExecutionOrder tasks = some order) ∧
    (NodupIds tasks →
      ∃ order, getExecutionOrder tasks = some order ∧ order.Perm tasks) :=
  ⟨getExecutionOrder_terminates tasks, fun h => getExecutionOrder_perm tasks h⟩

/-- C10 witness: the two-task dependency cycle `ca ↔ cb` has distinct
ids; the scheduler terminates on it with a permutation of the input. -/
theorem c10_scheduler_terminates_unique_witness :
    NodupIds [exCycA, exCycB] ∧
    (∃ order, getExecutionOrder [exCycA, exCycB] = some order ∧
      order.Perm [exCycA, exCycB]) :=
  ⟨by show (List.map Task.id [exCycA, exCycB]).Nodup; decide,
   (c10_scheduler_terminates_unique [exCycA, exCycB]).2
     (by show (List.map Task.id [exCycA, exCycB]).Nodup; decide)⟩

/-- Head decomposition of a transitive chain. -/
theorem transGen_head_cases {α : Type} {r : α → α → Prop} {a b : α}
    (h : Relation.TransGen r a b) :
    r a b ∨ ∃ c, r a c ∧ Relation.TransGen r c b := by
  induction h using Relation.TransGen.head_induction_on with
  | base h => exact Or.inl h
  | ih h' ht _ => exact Or.inr ⟨_, h', ht⟩

/-- Decomposing a decomposition of a list with one appended element. -/
theorem append_singleton_decomp {α : Type} (o2 : List α) (x t : α)
    (l1 l2 : List α) (h : l1 ++ t :: l2 = o2 ++ [x]) :
    (∃ l2', o2 = l1 ++ t :: l2' ∧ l2 = l2' ++ [x]) ∨
      (l1 = o2 ∧ t = x ∧ l2 = []) := by
  rcases List.eq_nil_or_concat l2 with hl2 | ⟨l2', y, rfl⟩
  · subst hl2
    have h' : l1 ++ [t] = o2 ++ [x] := by simpa using h
    obtain ⟨h1, h2⟩ := List.append_inj' h' rfl
    exact Or.inr ⟨h1, List.singleton_inj.mp h2, rfl⟩
  · have h' : (l1 ++ t :: l2') ++ [y] = o2 ++ [x] := by simpa using h
    obtain ⟨h1, h2⟩ := List.append_inj' h' rfl
    exact Or.inl ⟨l2', h1.symm, by simp [List.singleton_inj.mp h2]⟩

/-- Appending a task whose resolved dependencies are already placed
preserves topological consistency. -/
theorem topoOK_append_one (tasks : List Task) (o : List Task) (task : Task)
    (hT : TopoOK tasks o)
    (hcov : ∀ u, depOf tasks task u → u ∈ o) :
    TopoOK tasks (o ++ [task]) := by
  intro l1 t l2 hdec u hdep
  rcases append_singleton_decomp o task t l1 l2 hdec.symm with
    ⟨l2', ho, _⟩ | ⟨h1, h2, _⟩
  · exact hT l1 t l2' ho u hdep
  · subst h1
    subst h2
    exact hcov u hdep

/-- Direct-dependency ordering lifts to transitive dependencies: in a
topologically consistent list, everything a member transitively
depends on occurs strictly before it. -/
theorem topo_trans (tasks : List Task) (o : List Task) (hT : TopoOK tasks o) :
    ∀ l1 t l2, o = l1 ++ t :: l2 →
      ∀ u, Relation.TransGen (depOf tasks) t u → u ∈ l1 := by
  have key : ∀ n (l1 : List Task) (t : Task) (l2 : List Task),
      l1.length ≤ n → o = l1 ++ t :: l2 →
      ∀ u, Relation.TransGen (depOf tasks) t u → u ∈ l1 := by
    intro n
    induction n with
    | zero =>
      intro l1 t l2 hlen hdec u htr
      have hl1 : l1 = [] := List.eq_nil_of_length_eq_zero (Nat.le_zero.mp hlen)
      subst hl1
      rcases transGen_head_cases htr with hstep | ⟨c, hstep, _⟩
      · exact absurd (hT [] t l2 hdec u hstep) (List.not_mem_nil u)
      · exact absurd (hT [] t l2 hdec c hstep) (List.not_mem_nil c)
    | succ n ih =>
      intro l1 t l2 hlen hdec u htr
      rcases transGen_head_cases htr with hstep | ⟨c, hstep, htail⟩
      · exact hT l1 t l2 hdec u hstep
      · have hc : c ∈ l1 := hT l1 t l2 hdec c hstep
        obtain ⟨a, b, rfl⟩ := List.append_of_mem hc
        have hdec2 : o = a ++ c :: (b ++ t :: l2) := by
          rw [hdec]; simp
        have hla : a.length ≤ n := by
          have := hlen
          simp [List.length_append] at this
          omega
        have := ih a c (b ++ t :: l2) hla hdec2 u htail
        exact List.mem_append.mpr (Or.inl this)
  intro l1 t l2 hdec u htr
  exact key l1.length l1 t l2 (Nat.le_refl _) hdec u htr

/-- The dependency loop satisfies its ordering property whenever
`visit` does at the same fuel. -/
theorem visitDeps_topo_of (tasks : List Task) (fuel : Nat)
    (hT : VisitTopoP tasks fuel) : VisitDepsTopoP tasks fuel := by
  intro visited order deps
  induction deps generalizing visited order with
  | nil =>
    intro parent _ _ _ _ _ _ _ hTopo _ _ v o heq
    have ho : o = order := by
      have := heq
      simp [visitDeps] at this
      exact this.2.symm
    exact ⟨ho ▸ hTopo, by simp⟩
  | cons d rest ih =>
    intro parent hpar hnd hfl hnodup hacyc hordsub hblack hTopo hdsub hgrey v o
      heq
    cases hfind : tasks.find? (fun x => x.id == d) with
    | none =>
      simp only [visitDeps, hfind] at heq
      obtain ⟨hT2, hcov⟩ := ih visited order parent hpar hnd hfl hnodup hacyc
        hordsub hblack hTopo (fun d' hd' => hdsub d' (List.mem_cons_of_mem d hd'))
        hgrey v o heq
      refine ⟨hT2, ?_⟩
      intro d' hd' u' hu'
      rcases List.mem_cons.mp hd' with rfl | hrest
      · rw [hfind] at hu'
        cases hu'
      · exact hcov d' hrest u' hu'
    | some u =>
      have hu : u ∈ tasks := List.mem_of_find?_eq_some hfind
      obtain ⟨n1, Δ1, e1, p1, nv1, nd1, ids1, sub1, _⟩ :=
        visit_sound tasks fuel visited order u hu hnd hfl
      have hdepPU : depOf tasks parent u :=
        ⟨d, hdsub d (List.mem_cons_self d rest), hfind⟩
      have hgreyU : ∀ g ∈ visited, g ∉ order.map Task.id →
          ∃ tg ∈ tasks, tg.id = g ∧ Relation.TransGen (depOf tasks) tg u := by
        intro g hg hgb
        obtain ⟨tg, htg, hid, hor⟩ := hgrey g hg hgb
        refine ⟨tg, htg, hid, ?_⟩
        rcases hor with rfl | htr
        · exact Relation.TransGen.single hdepPU
        · exact htr.tail hdepPU
      obtain ⟨hT1, huo⟩ := hT visited order u hu hnd hfl hnodup hacyc hordsub
        hblack hTopo hgreyU _ _ e1
      have hfl1 : mcount tasks (n1 ++ visited) < fuel :=
        lt_of_le_of_lt
          (mcount_mono tasks visited (n1 ++ visited)
            (List.subset_append_right n1 visited)) hfl
      have hordsub2 : ∀ t ∈ order ++ Δ1, t ∈ tasks := by
        intro t ht
        rcases List.mem_append.mp ht with h1 | h2
        · exact hordsub t h1
        · exact sub1 t h2
      have hblack2 : ∀ x ∈ (order ++ Δ1).map Task.id, x ∈ n1 ++ visited := by
        intro x hx
        rw [List.map_append] at hx
        rcases List.mem_append.mp hx with h1 | h2
        · exact List.mem_append.mpr (Or.inr (hblack x h1))
        · exact List.mem_append.mpr (Or.inl (p1.mem_iff.mpr h2))
      have hgrey2 : ∀ g ∈ n1 ++ visited, g ∉ (order ++ Δ1).map Task.id →
          ∃ tg ∈ tasks, tg.id = g ∧
            (tg = parent ∨ Relation.TransGen (depOf tasks) tg parent) := by
        intro g hg hgb
        rw [List.map_append] at hgb
        have hgb1 : g ∉ order.map Task.id :=
          fun hm => hgb (List.mem_append.mpr (Or.inl hm))
        have hgb2 : g ∉ Δ1.map Task.id :=
          fun hm => hgb (List.mem_append.mpr (Or.inr hm))
        have hgv : g ∈ visited := by
          rcases List.mem_append.mp hg with h1 | h2
          · exact absurd (p1.mem_iff.mp h1) hgb2
          · exact h2
        exact hgrey g hgv hgb1
      simp only [visitDeps, hfind, e1] at heq
      obtain ⟨hT2, hcov2⟩ := ih (n1 ++ visited) (order ++ Δ1) parent hpar nd1
        hfl1 hnodup hacyc hordsub2 hblack2 hT1
        (fun d' hd' => hdsub d' (List.mem_cons_of_mem d hd')) hgrey2 v o heq
      obtain ⟨n2, Δ2, e2, _⟩ :=
        visitDeps_sound_of tasks fuel (visit_sound tasks fuel) (n1 ++ visited)
          (order ++ Δ1) rest nd1 hfl1
      have ho : o = (order ++ Δ1) ++ Δ2 := by
        rw [heq] at e2
        exact (Prod.mk.injEq _ _ _ _ ▸ Option.some.inj e2).2
      refine ⟨hT2, ?_⟩
      intro d' hd' u' hu'
      rcases List.mem_cons.mp hd' with rfl | hrest
      · have huu : u' = u := by
          rw [hfind] at hu'
          exact (Option.some.inj hu').symm
        subst huu
        rw [ho]
        exact List.mem_append.mpr (Or.inl huo)
      · exact hcov2 d' hrest u' hu'

/-- `visit` satisfies its ordering property at every fuel. -/
theorem visit_topo (tasks : List Task) : ∀ fuel, VisitTopoP tasks fuel := by
  intro fuel
  induction fuel with
  | zero =>
    intro visited order task _ _ hfl
    omega
  | succ f ihT =>
    intro visited order task htask hnd hfl hnodup hacyc hordsub hblack hTopo
      hgrey v o heq
    by_cases hvis : task.id ∈ visited
    · have ho : o = order := by
        simp [visit, hvis] at heq
        exact heq.2.symm
      subst ho
      refine ⟨hTopo, ?_⟩
      by_cases hb : task.id ∈ o.map Task.id
      · obtain ⟨u, hu, huid⟩ := List.mem_map.mp hb
        exact (task_eq_of_id_eq tasks hnodup task u htask (hordsub u hu) huid) ▸
          hu
      · obtain ⟨tg, htg, hid, htr⟩ := hgrey task.id hvis hb
        have htgt : tg = task := task_eq_of_id_eq tasks hnodup task tg htask htg hid
        rw [htgt] at htr
        exact absurd htr (hacyc task)
    · have hid : task.id ∈ tasks.map Task.id := List.mem_map_of_mem Task.id htask
      have hnd' : (task.id :: visited).Nodup := List.nodup_cons.mpr ⟨hvis, hnd⟩
      have hfl' : mcount tasks (task.id :: visited) < f := by
        have := mcount_cons tasks visited task.id hid hvis
        omega
      obtain ⟨n, Δ, e, p, nv, nd2, ids, sub⟩ :=
        visitDeps_sound_of tasks f (visit_sound tasks f) (task.id :: visited)
          order task.dependencies hnd' hfl'
      have hblack' : ∀ x ∈ order.map Task.id, x ∈ task.id :: visited :=
        fun x hx => List.mem_cons_of_mem _ (hblack x hx)
      have hgrey' : ∀ g ∈ task.id :: visited, g ∉ order.map Task.id →
          ∃ tg ∈ tasks, tg.id = g ∧
            (tg = task ∨ Relation.TransGen (depOf tasks) tg task) := by
        intro g hg hgb
        rcases List.mem_cons.mp hg with rfl | hgv
        · exact ⟨task, htask, rfl, Or.inl rfl⟩
        · obtain ⟨tg, htg, hgid, htr⟩ := hgrey g hgv hgb
          exact ⟨tg, htg, hgid, Or.inr htr⟩
      obtain ⟨hT1, hcov⟩ :=
        visitDeps_topo_of tasks f ihT (task.id :: visited) order
          task.dependencies task htask hnd' hfl' hnodup hacyc hordsub hblack'
          hTopo (fun d hd => hd) hgrey' _ _ e
      have ho : o = (order ++ Δ) ++ [task] := by
        simp [visit, hvis, e] at heq
        simpa using heq.2.symm
      subst ho
      refine ⟨?_, ?_⟩
      · apply topoOK_append_one tasks (order ++ Δ) task hT1
        intro u hdep
        obtain ⟨d, hd, hfindu⟩ := hdep
        exact hcov d hd u hfindu
      · simp

/-- The top-level scheduler loop preserves topological consistency:
between top-level visits there are no in-progress ids (the visited set
matches the placed ids exactly), so the grey-stack hypothesis of
`visit` holds vacuously. -/
theorem foldl_visit_topo (tasks : List Task) (fuel : Nat)
    (hfuel : ∀ visited, mcount tasks visited < fuel)
    (hnodup : NodupIds tasks) (hacyc : Acyclic tasks) :
    ∀ (pending : List Task) (v : List String) (o : List Task),
      (∀ t ∈ pending, t ∈ tasks) → v.Nodup → v.Perm (o.map Task.id) →
      (∀ t ∈ o, t ∈ tasks) → TopoOK tasks o →
      ∀ v' o',
        List.foldl
          (fun acc task =>
            match acc with
            | some (v, o) => visit tasks fuel v o task
            | Option.none => Option.none)
          (some (v, o)) pending = some (v', o') →
        TopoOK tasks o' := by
  intro pending
  induction pending with
  | nil =>
    intro v o _ _ _ _ hTopo v' o' heq
    have : o' = o := by
      simp at heq
      exact heq.2.symm
    exact this ▸ hTopo
  | cons t rest ih =>
    intro v o hpend hnd hperm hsub hTopo v' o' heq
    obtain ⟨n, Δ, e, p, nv, nd, ids, sub, tmem⟩ :=
      visit_sound tasks fuel v o t (hpend t (List.mem_cons_self t rest)) hnd
        (hfuel v)
    have hblack : ∀ x ∈ o.map Task.id, x ∈ v := fun x hx => hperm.mem_iff.mpr hx
    have hgrey : ∀ g ∈ v, g ∉ o.map Task.id →
        ∃ tg ∈ tasks, tg.id = g ∧ Relation.TransGen (depOf tasks) tg t := by
      intro g hg hgb
      exact absurd (hperm.mem_iff.mp hg) hgb
    obtain ⟨hT1, _⟩ :=
      visit_topo tasks fuel v o t (hpend t (List.mem_cons_self t rest)) hnd
        (hfuel v) hnodup hacyc hsub hblack hTopo hgrey _ _ e
    have hperm' : (n ++ v).Perm ((o ++ Δ).map Task.id) := by
      rw [List.map_append]
      exact (p.append hperm).trans List.perm_append_comm
    have hsub' : ∀ u ∈ o ++ Δ, u ∈ tasks := by
      intro u hu
      rcases List.mem_append.mp hu with h1 | h2
      · exact hsub u h1
      · exact sub u h2
    rw [List.foldl_cons] at heq
    simp only [e] at heq
    exact ih (n ++ v) (o ++ Δ)
      (fun u hu => hpend u (List.mem_cons_of_mem t hu)) nd hperm' hsub' hT1
      v' o' heq

/-- With unique ids and an acyclic dependency graph, the scheduler's
output is topologically consistent. -/
theorem getExecutionOrder_topoOK (tasks : List Task)
    (hnodup : NodupIds tasks) (hacyc : Acyclic tasks) :
    ∃ order, getExecutionOrder tasks = some order ∧ TopoOK tasks order := by
  obtain ⟨v', o', e, _⟩ :=
    foldl_visit_sound tasks ((tasks.map Task.id).dedup.length + 1)
      (fun visited => mcount_lt_fuel tasks visited) tasks [] []
      (fun t ht => ht) List.nodup_nil (by simp) (by simp)
  have htopo :=
    foldl_visit_topo tasks ((tasks.map Task.id).dedup.length + 1)
      (fun visited => mcount_lt_fuel tasks visited) hnodup hacyc tasks [] []
      (fun t ht => ht) List.nodup_nil (by simp) (by simp)
      (fun l1 t l2 hdec => by simp at hdec) v' o' e
  exact ⟨o', by simp [getExecutionOrder, e], htopo⟩

/-- C1, amended: for every finite task list with distinct task
identifiers whose dependency references are acyclic and name tasks
present in the list, `_get_execution_order` returns a permutation of
the input containing each task exactly once, in which every task
appears strictly after all tasks it transitively depends on. -/
theorem c1_execution_order_topological (tasks : List Task)
    (hnodup : NodupIds tasks) (_hpres : DepsPresent tasks)
    (hacyc : Acyclic tasks) :
    ∃ order, getExecutionOrder tasks = some order ∧ order.Perm tasks ∧
      ∀ l1 t l2, order = l1 ++ t :: l2 →
        ∀ u, Relation.TransGen (depOf tasks) t u → u ∈ l1 := by
  obtain ⟨o1, e1, hperm⟩ := getExecutionOrder_perm tasks hnodup
  obtain ⟨o2, e2, htopo⟩ := getExecutionOrder_topoOK tasks hnodup hacyc
  have ho : o1 = o2 := Option.some.inj (e1.symm.trans e2)
  subst ho
  exact ⟨o1, e1, hperm, topo_trans tasks o1 htopo⟩

/-- In the two-task witness list, every dependency edge ends at one of
its members. -/
theorem exPair_depOf_codomain (x y : Task)
    (h : depOf [exTaskB, exTaskA] x y) : y = exTaskB ∨ y = exTaskA := by
  obtain ⟨d, _, hfind⟩ := h
  have := List.mem_of_find?_eq_some hfind
  simpa using this

/-- The witness pair `b → a` is acyclic. -/
theorem exPair_acyclic : Acyclic [exTaskB, exTaskA] := by
  have hAnoOut : ∀ y, ¬ depOf [exTaskB, exTaskA] exTaskA y := by
    rintro y ⟨d, hd, _⟩
    simp [exTaskA] at hd
  have hBtoA : ∀ y, depOf [exTaskB, exTaskA] exTaskB y → y = exTaskA := by
    rintro y ⟨d, hd, hfind⟩
    simp [exTaskB] at hd
    subst hd
    simp [List.find?, exTaskB, exTaskA] at hfind
    exact hfind.symm
  have hend : ∀ a b, Relation.TransGen (depOf [exTaskB, exTaskA]) a b →
      b = exTaskB ∨ b = exTaskA := by
    intro a b h
    induction h with
    | single h1 => exact exPair_depOf_codomain _ _ h1
    | tail _ h2 _ => exact exPair_depOf_codomain _ _ h2
  intro t h
  rcases hend t t h with rfl | rfl
  · rcases transGen_head_cases h with hstep | ⟨c, hstep, htail⟩
    · exact absurd (congrArg Task.id (hBtoA _ hstep)) (by decide)
    · have hc := hBtoA _ hstep
      subst hc
      rcases transGen_head_cases htail with hstep2 | ⟨c2, hstep2, _⟩
      · exact hAnoOut _ hstep2
      · exact hAnoOut _ hstep2
  · rcases transGen_head_cases h with hstep | ⟨c, hstep, _⟩
    · exact hAnoOut _ hstep
    · exact hAnoOut _ hstep

/-- C1 witness: the concrete two-task chain `b` depends on `a`. -/
theorem c1_execution_order_topological_witness :
    (NodupIds [exTaskB, exTaskA] ∧ DepsPresent [exTaskB, exTaskA] ∧
      Acyclic [exTaskB, exTaskA]) ∧
    (∃ order, getExecutionOrder [exTaskB, exTaskA] = some order ∧
      order.Perm [exTaskB, exTaskA] ∧
      ∀ l1 t l2, order = l1 ++ t :: l2 →
        ∀ u, Relation.TransGen (depOf [exTaskB, exTaskA]) t u → u ∈ l1) :=
  ⟨⟨by show (List.map Task.id [exTaskB, exTaskA]).Nodup; decide,
    by show ∀ t ∈ [exTaskB, exTaskA], ∀ d ∈ t.dependencies,
         ∃ u ∈ [exTaskB, exTaskA], u.id = d
       decide,
    exPair_acyclic⟩,
   c1_execution_order_topological [exTaskB, exTaskA]
     (by show (List.map Task.id [exTaskB, exTaskA]).Nodup; decide)
     (by show ∀ t ∈ [exTaskB, exTaskA], ∀ d ∈ t.dependencies,
           ∃ u ∈ [exTaskB, exTaskA], u.id = d
         decide)
     exPair_acyclic⟩



/-- Recording a task result never changes the instance status. -/
theorem record_status (i : Instance) (tid : String) (r : TaskResult) :
    (i.record tid r).status = i.status := rfl

/-- Task execution never changes the instance's overall status: the
executor only writes task results and retry-counter variables.  In
particular no failure inside `_execute_task` — a missing handler
included — can mark the instance `failed`. -/
theorem executeTask_status :
    ∀ (fuel : Nat) (handlers : Handlers) (i : Instance) (t : Task),
      ((executeTask fuel handlers i t).2.1).status = i.status := by
  intro fuel
  induction fuel with
  | zero => intro handlers i t; simp [executeTask]
  | succ n ih =>
    have hseq : ∀ (handlers : Handlers) (i : Instance) (subs : List Task),
        ((handleSequence n handlers i subs).2.1).status = i.status := by
      intro handlers i subs
      induction subs generalizing i with
      | nil => simp [handleSequence]
      | cons a rest ihs =>
        rcases hE : executeTask n handlers i a with ⟨r, i2, lg⟩
        have h2 : i2.status = i.status := by
          have := ih handlers i a
          rw [hE] at this
          exact this
        rcases hS : handleSequence n handlers i2 rest with ⟨rs2, i3, lg2⟩
        have h3 : i3.status = i2.status := by
          have := ihs i2
          rw [hS] at this
          exact this
        simp only [handleSequence, hE, hS]
        by_cases hr : (r.status == TaskStatus.failed) = true
        · simp [hr, h2]
        · simp only [Bool.not_eq_true] at hr
          simp [hr, h3, h2]
    have hrun : ∀ (handlers : Handlers) (i : Instance) (t : Task)
        (impl : HandlerImpl),
        ((runHandler n handlers i t impl).2.1).status = i.status := by
      intro handlers i t impl
      cases impl with
      | custom f => simp [runHandler]
      | sequence =>
        rcases hS : handleSequence n handlers i t.configTasks with ⟨rs, i2, lg⟩
        have h2 : i2.status = i.status := by
          have := hseq handlers i t.configTasks
          rw [hS] at this
          exact this
        simp only [runHandler, hS]
        exact h2
    have hretry : ∀ (handlers : Handlers) (i : Instance) (t : Task)
        (rp : RetryPolicy),
        ((handleRetry n handlers i t rp).1).status = i.status := by
      intro handlers i t rp
      simp only [handleRetry]
      by_cases hc :
          (((i.vars.lookup (t.id ++ "_retries")).getD (.num 0)).asNum.getD 0 <
            rp.max_retries.getD 3)
      · rcases hE : executeTask n handlers
            { i with vars := (t.id ++ "_retries",
                Value.num (((i.vars.lookup (t.id ++ "_retries")).getD
                  (.num 0)).asNum.getD 0 + 1)) :: i.vars } t with ⟨r, i2, lg⟩
        have h2 : i2.status = i.status := by
          have h := ih handlers
            { i with vars := (t.id ++ "_retries",
                Value.num (((i.vars.lookup (t.id ++ "_retries")).getD
                  (.num 0)).asNum.getD 0 + 1)) :: i.vars } t
          rw [hE] at h
          exact h
        simp [hc, hE, h2]
      · simp [hc]
    intro handlers i t
    by_cases hum : hasUnmetDependency i t = true
    · simp [executeTask, hum, record_status]
    · simp only [Bool.not_eq_true] at hum
      cases hh : handlers t.type with
      | none =>
        cases hrp : t.retry_policy with
        | none => simp [executeTask, hum, hh, hrp, record_status]
        | some rp =>
          rcases hR : handleRetry n handlers
              ((i.record t.id ⟨.running, Option.none, Option.none⟩).record t.id
                ⟨.failed, Option.none, some (noHandlerMsg t.type)⟩) t rp
            with ⟨i4, lg⟩
          have h4 : i4.status = i.status := by
            have := hretry handlers
              ((i.record t.id ⟨.running, Option.none, Option.none⟩).record t.id
                ⟨.failed, Option.none, some (noHandlerMsg t.type)⟩) t rp
            rw [hR] at this
            exact this
          simp [executeTask, hum, hh, hrp, hR, h4]
      | some impl =>
        rcases hO : runHandler n handlers
            (i.record t.id ⟨.running, Option.none, Option.none⟩) t impl
          with ⟨outcome, i2, lg⟩
        have h2 : i2.status = i.status := by
          have := hrun handlers
            (i.record t.id ⟨.running, Option.none, Option.none⟩) t impl
          rw [hO] at this
          exact this
        cases outcome with
        | ok v => simp [executeTask, hum, hh, hO, record_status, h2]
        | error e =>
          cases hrp : t.retry_policy with
          | none => simp [executeTask, hum, hh, hO, hrp, record_status, h2]
          | some rp =>
            rcases hR : handleRetry n handlers
                (i2.record t.id ⟨.failed, Option.none, some e.msg⟩) t rp
              with ⟨i4, lg2⟩
            have h4 : i4.status = i.status := by
              have := hretry handlers
                (i2.record t.id ⟨.failed, Option.none, some e.msg⟩) t rp
              rw [hR] at this
              simpa [Instance.record, h2] using this
            simp [executeTask, hum, hh, hO, hrp, hR, h4]

/-- A fold whose step preserves the `running` status preserves it. -/
theorem foldl_status_preserved
    (f : Instance × List String → Task → Instance × List String)
    (hf : ∀ acc t, acc.1.status = TaskStatus.running →
      ((f acc t).1).status = TaskStatus.running) :
    ∀ (o : List Task) (acc : Instance × List String),
      acc.1.status = TaskStatus.running →
      ((List.foldl f acc o).1).status = TaskStatus.running := by
  intro o
  induction o with
  | nil => intro acc h; exact h
  | cons t rest ih =>
    intro acc h
    rw [List.foldl_cons]
    exact ih _ (hf acc t h)

/-- Every instance run finishes with overall status `completed`: the
scheduler always terminates, per-task failures are absorbed inside
`_execute_task`, and nothing in the sequential model sets `cancelled`
mid-run. -/
theorem executeInstance_completes (fuel : Nat) (handlers : Handlers)
    (inst : Instance) (tasks : List Task) :
    ((executeInstance fuel handlers inst tasks).1).status =
      TaskStatus.completed := by
  obtain ⟨order, e⟩ := getExecutionOrder_terminates tasks
  have hf : ∀ (acc : Instance × List String) (t : Task),
      acc.1.status = TaskStatus.running →
      (((fun (acc : Instance × List String) (task : Task) =>
          if acc.1.status == TaskStatus.cancelled then acc
          else
            let r := executeTask fuel handlers acc.1 task
            (r.2.1, acc.2 ++ r.2.2)) acc t).1).status = TaskStatus.running := by
    intro acc t h
    have hc : (acc.1.status == TaskStatus.cancelled) = false := by simp [h]
    simp only [hc, Bool.false_eq_true, if_false]
    have := executeTask_status fuel handlers acc.1 t
    rw [h] at this
    exact this
  have hrun := foldl_status_preserved _ hf order
    ({ inst with status := TaskStatus.running }, ([] : List String)) rfl
  unfold executeInstance
  simp only [e]
  simp only [hrun]
  simp

/-- C2, amended: a missing handler is not fatal to the instance run.
Executing a task whose type has no registered handler (dependencies
satisfied, no retry policy) records `running` and then `failed` with
the message of the raised `ValueError` — the exception is caught by
the task executor's own handler like any task failure — and every
instance run still finishes with overall status `completed`, not
`failed`. -/
theorem c2_missing_handler_recovered :
    (∀ (fuel : Nat) (handlers : Handlers) (inst : Instance) (task : Task),
      handlers task.type = Option.none →
      hasUnmetDependency inst task = false →
      task.retry_policy = Option.none →
      executeTask (fuel + 1) handlers inst task =
        ((⟨.failed, Option.none, some (noHandlerMsg task.type)⟩ : TaskResult),
         (inst.record task.id ⟨.running, Option.none, Option.none⟩).record
           task.id ⟨.failed, Option.none, some (noHandlerMsg task.type)⟩,
         [])) ∧
    (∀ (fuel : Nat) (handlers : Handlers) (inst : Instance)
        (tasks : List Task),
      ((executeInstance fuel handlers inst tasks).1).status =
        TaskStatus.completed) := by
  constructor
  · intro fuel handlers inst task hh hum hrp
    simp [executeTask, hum, hh, hrp]
  · intro fuel handlers inst tasks
    exact executeInstance_completes fuel handlers inst tasks

/-- C2 witness: the no-handler table on the single script task. -/
theorem c2_missing_handler_recovered_witness :
    (exNoHandlers exTaskA.type = Option.none ∧
      hasUnmetDependency exInstance exTaskA = false ∧
      exTaskA.retry_policy = Option.none) ∧
    executeTask (2 + 1) exNoHandlers exInstance exTaskA =
      ((⟨.failed, Option.none, some (noHandlerMsg exTaskA.type)⟩ : TaskResult),
       (exInstance.record exTaskA.id ⟨.running, Option.none, Option.none⟩).record
         exTaskA.id ⟨.failed, Option.none, some (noHandlerMsg exTaskA.type)⟩,
       []) ∧
    ((executeInstance 5 exNoHandlers exInstance [exTaskA]).1).status =
      TaskStatus.completed :=
  ⟨⟨rfl, by simp [hasUnmetDependency, exTaskA], rfl⟩,
   c2_missing_handler_recovered.1 2 exNoHandlers exInstance exTaskA rfl
     (by simp [hasUnmetDependency, exTaskA]) rfl,
   c2_missing_handler_recovered.2 5 exNoHandlers exInstance [exTaskA]⟩

end Pyheart
